import Mathlib

/-!
# Load-test analysis engine: quadratic fit, root solver, validator, interpolator

Shallow embedding of `analysis.go` and of `result.go` (the sample record, its latency
selector and the parser of the load generator's CSV output).

Arithmetic model.  The Go code computes in `float64`.  Here a `float64` that is an
ordinary number is an element of a linearly ordered field `K` and is computed exactly
(no rounding, no overflow); conversions `float64(n)` of an `int` are the cast of an
integer into `K`.  The only operation of the code that leaves the ordinary numbers in
exact arithmetic is a division by zero, so the quotients whose divisor can vanish are
values of `Float64 K`: an ordinary number, `+Inf`, `-Inf` or `NaN`, with the IEEE 754
rules for arithmetic and comparison on the special values (a zero divisor counts as
`+0`).  `math.Sqrt` is a parameter `sqrt : K → K` of the functions that call it; over
the reals it is instantiated with `Real.sqrt`.

Library calls.  The matrix inversion of the fit reports an error for a singular matrix
and for a condition number above `1e16`; the condition number is the exact one in the
max-row-sum norm.  The CSV reader is its lexical layer, a parameter, followed by its
field-count rule.  Where rounding decides a property, the interpolation is evaluated a
second time with the float64 rounding of every operation (`interpolateThroughputRounded`
with `round64`).
-/

namespace Loadtest

/-- A float64 value in exact arithmetic: an ordinary number of the field `K`, or one
of the IEEE 754 special values that a division by zero produces. -/
inductive Float64 (K : Type) where
  | num (x : K)
  | posInf
  | negInf
  | nan
  deriving DecidableEq, Repr

namespace Float64

variable {K : Type} [LinearOrderedField K]

/-- Unary minus of IEEE 754. -/
def neg : Float64 K → Float64 K
  | num x => num (-x)
  | posInf => negInf
  | negInf => posInf
  | nan => nan

/-- Addition of IEEE 754 (exact on ordinary numbers). -/
def add : Float64 K → Float64 K → Float64 K
  | num x, num y => num (x + y)
  | num _, posInf => posInf
  | num _, negInf => negInf
  | num _, nan => nan
  | posInf, num _ => posInf
  | posInf, posInf => posInf
  | posInf, negInf => nan
  | posInf, nan => nan
  | negInf, num _ => negInf
  | negInf, posInf => nan
  | negInf, negInf => negInf
  | negInf, nan => nan
  | nan, _ => nan

/-- Subtraction of IEEE 754. -/
def sub (x y : Float64 K) : Float64 K := add x (neg y)

/-- The infinity with the sign of the ordinary number `x` (`x` nonzero). -/
def infOfSign (x : K) : Float64 K := if 0 < x then posInf else negInf

/-- Multiplication of IEEE 754 (exact on ordinary numbers; zero times infinity is NaN). -/
def mul : Float64 K → Float64 K → Float64 K
  | num x, num y => num (x * y)
  | num x, posInf => if x = 0 then nan else infOfSign x
  | num x, negInf => if x = 0 then nan else infOfSign (-x)
  | num _, nan => nan
  | posInf, num y => if y = 0 then nan else infOfSign y
  | posInf, posInf => posInf
  | posInf, negInf => negInf
  | posInf, nan => nan
  | negInf, num y => if y = 0 then nan else infOfSign (-y)
  | negInf, posInf => negInf
  | negInf, negInf => posInf
  | negInf, nan => nan
  | nan, _ => nan

/-- Division of IEEE 754: exact on ordinary numbers with a nonzero divisor; a nonzero
number over zero is an infinity, zero over zero is NaN.  The field `K` has one zero, which
stands for the positive zero of float64: the sign of the infinity is that of the dividend.
With the negative zero as divisor the machine returns the infinity of the opposite sign,
and a dividend that rounds to zero gives NaN there; statements for every input therefore
say only that such a quotient is not an ordinary number. -/
def div : Float64 K → Float64 K → Float64 K
  | num x, num y =>
      if y = 0 then (if x = 0 then nan else infOfSign x) else num (x / y)
  | num _, posInf => num 0
  | num _, negInf => num 0
  | num _, nan => nan
  | posInf, num y => if 0 ≤ y then posInf else negInf
  | posInf, _ => nan
  | negInf, num y => if 0 ≤ y then negInf else posInf
  | negInf, _ => nan
  | nan, _ => nan

/-- Comparison `x < y` of IEEE 754: false as soon as one side is NaN. -/
def lt : Float64 K → Float64 K → Bool
  | num x, num y => decide (x < y)
  | num _, posInf => true
  | negInf, num _ => true
  | negInf, posInf => true
  | _, _ => false

/-- Comparison `x <= y` of IEEE 754: false as soon as one side is NaN. -/
def le : Float64 K → Float64 K → Bool
  | num x, num y => decide (x ≤ y)
  | num _, posInf => true
  | negInf, num _ => true
  | negInf, posInf => true
  | posInf, posInf => true
  | negInf, negInf => true
  | _, _ => false

/-- Comparison `x > y`. -/
def gt (x y : Float64 K) : Bool := lt y x

/-- Comparison `x >= y`. -/
def ge (x y : Float64 K) : Bool := le y x

end Float64

/-- The type `LatencyPercentile` of `result.go`: a string. -/
abbrev LatencyPercentile := String

/-- Constant `Latency50`. -/
def Latency50 : LatencyPercentile := "50%"
/-- Constant `Latency90`. -/
def Latency90 : LatencyPercentile := "90%"
/-- Constant `Latency98`. -/
def Latency98 : LatencyPercentile := "98%"
/-- Constant `Latency99`. -/
def Latency99 : LatencyPercentile := "99%"
/-- Constant `LatencyAvg`. -/
def LatencyAvg : LatencyPercentile := "avg"

/-- The struct `TestResult` of `result.go`, one completed run of the load generator. -/
structure TestResult (K : Type) where
  Name : String
  Throughput : K
  AvgLatency : K
  Threads : Int
  Connections : Int
  Duration : K
  Completed : Int
  Successful : Int
  Errors : Int
  Sockets : Int
  MinLatency : K
  MaxLatency : K
  Latency50 : K
  Latency90 : K
  Latency98 : K
  Latency99 : K

variable {K : Type} [LinearOrderedField K]

/-- Method `(*TestResult).Latency`: the latency statistic a selector names, `-1` for a
selector that is none of the five constants. -/
def TestResult.Latency (r : TestResult K) (percentile : LatencyPercentile) : K :=
  if percentile = Loadtest.Latency50 then r.Latency50
  else if percentile = Loadtest.Latency90 then r.Latency90
  else if percentile = Loadtest.Latency98 then r.Latency98
  else if percentile = Loadtest.Latency99 then r.Latency99
  else if percentile = Loadtest.LatencyAvg then r.AvgLatency
  else -1

/-- The errors of `analysis.go`, one constructor per `fmt.Errorf` message; the three
wrapping messages of `analyzeAndPredict` carry the error they wrap.  `indexOutOfRange`
is the run-time failure of indexing an empty slice. -/
inductive AnalysisError where
  /-- Message "insufficient data points for quadratic regression (need at least 3)" -/
  | insufficientData
  /-- Message "failed to invert matrix: ..." -/
  | invertMatrix
  /-- Message "no real solutions for concurrency at target latency ...ms" -/
  | noRealSolutions (targetLatency : Int)
  /-- Message "target latency ...ms cannot be achieved based on the quadratic fit" -/
  | cannotBeAchieved (targetLatency : Int)
  /-- Message "predicted roots (...) are outside the observed concurrency range [...]" -/
  | rootsOutsideRange
  /-- Message "all observed latencies are above the target latency of ...ms" -/
  | allLatenciesAbove (targetLatency : Int)
  /-- Message "not enough test results to interpolate" -/
  | notEnoughResults
  /-- Message "predicted connections ... is out of bounds for the test results" -/
  | outOfBounds
  /-- Message "failed to perform quadratic regression: ..." -/
  | regressionFailed (cause : AnalysisError)
  /-- Message "failed to predict concurrency: ..." -/
  | predictFailed (cause : AnalysisError)
  /-- Message "failed to interpolate throughput: ..." -/
  | interpolateFailed (cause : AnalysisError)
  /-- Run-time failure: index out of range on an empty slice. -/
  | indexOutOfRange
  deriving DecidableEq, Repr

/-- The norm `CondNorm = lapack.MaxRowSum` that the matrix library uses for its condition
number, on a 3×3 matrix: the greatest sum of the absolute values of a row. -/
def maxRowSum (M : Matrix (Fin 3) (Fin 3) K) : K :=
  max (max (|M 0 0| + |M 0 1| + |M 0 2|) (|M 1 0| + |M 1 1| + |M 1 2|))
    (|M 2 0| + |M 2 1| + |M 2 2|)

/-- The constant `ConditionTolerance` of the matrix library: `1e16`. -/
def ConditionTolerance : K := 10 ^ 16

/-- The condition number of a nonsingular 3×3 matrix in the max-row-sum norm: the norm of
the matrix times the norm of its inverse. -/
def conditionNumber (M : Matrix (Fin 3) (Fin 3) K) : K :=
  maxRowSum M * maxRowSum (M.det⁻¹ • M.adjugate)

/-- The call `XTInv.Inverse(&XT)` of the matrix library on a 3×3 matrix, in exact
arithmetic.  The library reports an error (a `Condition` error, which `quadraticRegression`
returns as its own failure) when the matrix is singular and when its condition number
exceeds `ConditionTolerance`; otherwise the result is the inverse, here the adjugate
divided by the determinant.  The library estimates the condition number in floating point;
here it is the exact value. -/
def inverse (M : Matrix (Fin 3) (Fin 3) K) : Option (Matrix (Fin 3) (Fin 3) K) :=
  if M.det = 0 then none
  else if ConditionTolerance < conditionNumber M then none
  else some (M.det⁻¹ • M.adjugate)

/-- The design matrix `X` built by `quadraticRegression`: row `i` is `[1, x, x*x]` for the
concurrency `x` of sample `i`. -/
def designMatrix {n : Nat} (concurrency : Fin n → K) : Matrix (Fin n) (Fin 3) K :=
  Matrix.of fun i => ![1, concurrency i, concurrency i * concurrency i]

/-- The slice `concurrency` filled by the first loop of `quadraticRegression`:
`float64(res.Connections)` for each sample. -/
def concurrencyOf (results : List (TestResult K)) : Fin results.length → K :=
  fun i => ((results.get i).Connections : K)

/-- The slice `latency` filled by the first loop of `quadraticRegression`:
`res.Latency(latencyPercentile)` for each sample. -/
def latencyOf (results : List (TestResult K)) (latencyPercentile : LatencyPercentile) :
    Fin results.length → K :=
  fun i => (results.get i).Latency latencyPercentile

/-- Function `quadraticRegression`: the coefficients `(a, b, c)` of the least-squares
quadratic through the (concurrency, latency) pairs, by the normal equations.  The
warning it prints for a sample with errors is console output and not part of the result. -/
def quadraticRegression (results : List (TestResult K))
    (latencyPercentile : LatencyPercentile) : Except AnalysisError (K × K × K) :=
  if results.length < 3 then
    .error .insufficientData
  else
    let X := designMatrix (concurrencyOf results)
    let y := latencyOf results latencyPercentile
    let XT := X.transpose * X
    match inverse XT with
    | none => .error .invertMatrix
    | some XTInv =>
      let XTy := X.transpose.mulVec y
      let beta := XTInv.mulVec XTy
      .ok (beta 2, beta 1, beta 0)

/-- Function `predictConcurrencyQuad`: the root `(-b + sqrt delta) / (2a)` of
`a x² + b x + c = targetLatency`. -/
def predictConcurrencyQuad (sqrt : K → K) (a b c : K) (targetLatency : Int) :
    Except AnalysisError (Float64 K) :=
  let delta := b * b - 4 * a * (c - (targetLatency : K))
  if delta < 0 then
    .error (.noRealSolutions targetLatency)
  else
    .ok (Float64.div (.num (-b + sqrt delta)) (.num (2 * a)))

/-- The loop of `validatePrediction` over the samples: true when no sample has a latency
at the selected percentile that is at most the target. -/
def allLatenciesAboveTarget (targetLatency : Int) (latencyPercentile : LatencyPercentile) :
    List (TestResult K) → Bool
  | [] => true
  | res :: rest =>
    if res.Latency latencyPercentile ≤ (targetLatency : K) then false
    else allLatenciesAboveTarget targetLatency latencyPercentile rest

/-- Function `validatePrediction`: `none` is the nil error. -/
def validatePrediction (sqrt : K → K) (a b c : K) (targetLatency : Int)
    (latencyPercentile : LatencyPercentile) (results : List (TestResult K)) :
    Option AnalysisError :=
  let discriminant := b * b - 4 * a * (c - (targetLatency : K))
  if discriminant < 0 then
    some (.cannotBeAchieved targetLatency)
  else
    let root1 := Float64.div (.num (-b + sqrt discriminant)) (.num (2 * a))
    let root2 := Float64.div (.num (-b - sqrt discriminant)) (.num (2 * a))
    match results.head?, results.getLast? with
    | some first, some last =>
      let minConnections : Float64 K := .num (first.Connections : K)
      let maxConnections : Float64 K := .num (last.Connections : K)
      if (Float64.lt root1 minConnections || Float64.gt root1 maxConnections) &&
          (Float64.lt root2 minConnections || Float64.gt root2 maxConnections) then
        some .rootsOutsideRange
      else if allLatenciesAboveTarget targetLatency latencyPercentile results then
        some (.allLatenciesAbove targetLatency)
      else
        none
    | _, _ => some .indexOutOfRange

/-- The loop of `interpolateThroughput`: scans the samples in order and returns
`(predictedLow, predictedHigh)`, each `none` while it is a nil pointer.  The scan stops at
the first sample whose concurrency is `>=` the predicted one. -/
def findAdjacent (predictedConnections : Float64 K) :
    List (TestResult K) → Option (TestResult K) →
      Option (TestResult K) × Option (TestResult K)
  | [], predictedLow => (predictedLow, none)
  | res :: rest, predictedLow =>
    if Float64.ge (.num (res.Connections : K)) predictedConnections then
      (predictedLow, some res)
    else
      findAdjacent predictedConnections rest (some res)

/-- Function `interpolateThroughput`: linear interpolation of the throughput between the
two samples adjacent to the predicted concurrency.  The arithmetic on ordinary numbers is
exact; `interpolateThroughputRounded` is the same function with the float64 rounding of
every operation. -/
def interpolateThroughput (results : List (TestResult K))
    (predictedConnections : Float64 K) : Except AnalysisError (Float64 K) :=
  if results.length < 2 then
    .error .notEnoughResults
  else
    match findAdjacent predictedConnections results none with
    | (some predictedLow, some predictedHigh) =>
      let x1 : Float64 K := .num (predictedLow.Connections : K)
      let y1 : Float64 K := .num predictedLow.Throughput
      let x2 : Float64 K := .num (predictedHigh.Connections : K)
      let y2 : Float64 K := .num predictedHigh.Throughput
      .ok (Float64.add y1
        (Float64.div (Float64.mul (Float64.sub y2 y1) (Float64.sub predictedConnections x1))
          (Float64.sub x2 x1)))
    | _ => .error .outOfBounds

/-- Function `analyzeAndPredict`: fit, solve, validate, interpolate; the value returned
is the predicted concurrency. -/
def analyzeAndPredict (sqrt : K → K) (targetLatency : Int)
    (latencyPercentile : LatencyPercentile) (results : List (TestResult K)) :
    Except AnalysisError (Float64 K) :=
  match quadraticRegression results latencyPercentile with
  | .error err => .error (.regressionFailed err)
  | .ok (a, b, c) =>
    match predictConcurrencyQuad sqrt a b c targetLatency with
    | .error err => .error (.predictFailed err)
    | .ok predictedConcurrencyQuad =>
      match validatePrediction sqrt a b c targetLatency latencyPercentile results with
      | some err => .error err
      | none =>
        match interpolateThroughput results predictedConcurrencyQuad with
        | .error err => .error (.interpolateFailed err)
        | .ok _ => .ok predictedConcurrencyQuad

/-! ## Quantities named by the specification and sample data -/

/-- The sum of squared residuals `Σ (predicted − observed)²` of the quadratic
`a x² + b x + c` over the samples, the observed value being the latency at the selected
percentile and `x` the concurrency of the sample. -/
def sumSquaredResiduals (results : List (TestResult K)) (latencyPercentile : LatencyPercentile)
    (a b c : K) : K :=
  (results.map fun r =>
    (a * (r.Connections : K) ^ 2 + b * (r.Connections : K) + c
      - r.Latency latencyPercentile) ^ 2).sum

/-- The power sum `Σ xᵏ` of the concurrency values `x` of the samples; the entries of `XᵀX`
are the power sums for `k = 0, …, 4`. -/
def powerSum (results : List (TestResult K)) (k : Nat) : K :=
  (results.map fun r : TestResult K => (r.Connections : K) ^ k).sum

/-- A sample with the given concurrency, 90th-percentile latency and throughput, every
other field zero or empty. -/
def sample {F : Type} [Zero F] (connections : Int) (latency90 throughput : F) :
    TestResult F :=
  { Name := "", Throughput := throughput, AvgLatency := 0, Threads := 0,
    Connections := connections, Duration := 0, Completed := 0, Successful := 0,
    Errors := 0, Sockets := 0, MinLatency := 0, MaxLatency := 0, Latency50 := 0,
    Latency90 := latency90, Latency98 := 0, Latency99 := 0 }

/-- Three samples on the parabola `y = x²`. -/
def parabolaSamples : List (TestResult ℚ) := [sample 1 1 0, sample 2 4 0, sample 3 9 0]

/-- Three samples on the line `y = x` with concurrency 1, 100 and 10000. -/
def wideSamples : List (TestResult K) :=
  [sample 1 1 0, sample 100 100 0, sample 10000 10000 0]

/-- Three samples with latencies 1, 3, 2 at concurrency 1, 2, 3. -/
def zigzagSamples : List (TestResult ℚ) := [sample 1 1 0, sample 2 3 0, sample 3 2 0]

/-- Two samples in ascending order of concurrency. -/
def twoSamples : List (TestResult ℚ) := [sample 1 10 100, sample 10 20 900]

/-- Three samples in ascending order of concurrency. -/
def rampSamples : List (TestResult ℚ) := [sample 2 5 200, sample 4 9 380, sample 8 20 700]

/-- The four samples of the end-to-end example of the specification. -/
def endToEndSamples : List (TestResult K) :=
  [sample 1 10 100, sample 10 20 900, sample 50 80 4000, sample 100 200 6000]

/-- Three samples that share the concurrency value 5. -/
def constantSamples : List (TestResult ℚ) := [sample 5 1 0, sample 5 2 0, sample 5 3 0]

/-- Two samples whose 90th-percentile latencies are 50 and 60. -/
def slowSamples : List (TestResult K) := [sample 1 50 100, sample 10 60 900]

/-- Three samples on the parabola `y = x² − 8x + 22`, in ascending order of concurrency. -/
def sortedSamples : List (TestResult K) :=
  [sample 1 15 100, sample 3 7 300, sample 10 42 900]

/-- The samples of `sortedSamples` in the order of concurrency 1, 10, 3. -/
def unsortedSamples : List (TestResult K) :=
  [sample 1 15 100, sample 10 42 900, sample 3 7 300]

/-- The samples of `sortedSamples` with nonzero error and completed counts. -/
def sortedSamplesWithErrors : List (TestResult K) :=
  [{ (sample 1 15 100 : TestResult K) with Errors := 3, Completed := 50 },
   { (sample 3 7 300 : TestResult K) with Errors := 0, Completed := 70 },
   { (sample 10 42 900 : TestResult K) with Errors := 12, Completed := 90 }]

/-- The fields of a sample that the analysis reads: the concurrency, the latency at the
selected percentile and the throughput. -/
def observed (latencyPercentile : LatencyPercentile) (r : TestResult K) : Int × K × K :=
  (r.Connections, r.Latency latencyPercentile, r.Throughput)

/-- Two samples that differ at most in their `Errors` and `Completed` fields. -/
def sameUpToErrorCounts {F : Type} (r r' : TestResult F) : Prop :=
  r' = { r with Errors := r'.Errors, Completed := r'.Completed }

/-! ## Parsing the output of the load generator (`result.go`) -/

/-- The errors of `parseCSVOutput`, one constructor per `fmt.Errorf` message. -/
inductive ParseError where
  /-- Message "could not read CSV records: ..." -/
  | couldNotRead
  /-- Message "no records found in CSV output" -/
  | noRecords
  /-- Message "invalid CSV format ..." with the offending record -/
  | invalidFormat (record : List String)
  /-- Message "failed to parse ...: ..." with the name of the column -/
  | failedToParse (column : String)
  deriving DecidableEq, Repr

/-- The pattern `v, err := parse(field); if err != nil { return nil, fmt.Errorf(...) }` of
`parseCSVOutput`: the parsed value, or the failed-to-parse error for the named column. -/
def orFail {α : Type} (column : String) : Option α → Except ParseError α
  | some v => .ok v
  | none => .error (.failedToParse column)

/-- The field-count rule of `csv.Reader` with its default `FieldsPerRecord = 0`: the
number of fields of the first record is the number every later record must have; a later
record of another width makes the reader report an error (`none`). -/
def checkFieldCount : List (List String) → Option (List (List String))
  | [] => some []
  | record :: rest =>
    if rest.all fun r => r.length = record.length then some (record :: rest) else none

/-- The call `csv.NewReader(strings.NewReader(output)).ReadAll()`: `none` when it reports
an error.  The parameter `readRecords` is the lexical layer of the library (lines, commas
and quotes; `none` for a lexical error); on its records the reader applies the field-count
rule. -/
def ReadAll (readRecords : String → Option (List (List String))) (output : String) :
    Option (List (List String)) :=
  (readRecords output).bind checkFieldCount

/-- Function `parseCSVOutput`.  The library calls are parameters: `readRecords` is the
lexical layer of the CSV reader (see `ReadAll`), `parseFloat` is
`strconv.ParseFloat(·, 64)` and `atoi` is `strconv.Atoi` (`none` when they report an
error).  `record.getD i ""` is `records[0][i]`; the length check before it keeps every
index used in range. -/
def parseCSVOutput {F : Type} (readRecords : String → Option (List (List String)))
    (parseFloat : String → Option F) (atoi : String → Option Int) (output : String) :
    Except ParseError (TestResult F) :=
  match ReadAll readRecords output with
  | none => .error .couldNotRead
  | some [] => .error .noRecords
  | some (record :: _) =>
    if record.length < 16 then
      .error (.invalidFormat record)
    else do
      let throughput ← orFail "throughput" (parseFloat (record.getD 1 ""))
      let avgLatency ← orFail "avg latency" (parseFloat (record.getD 2 ""))
      let threads ← orFail "threads" (atoi (record.getD 3 ""))
      let connections ← orFail "connections" (atoi (record.getD 4 ""))
      let duration ← orFail "duration" (parseFloat (record.getD 5 ""))
      let completed ← orFail "completed" (atoi (record.getD 6 ""))
      let successful ← orFail "successful" (atoi (record.getD 7 ""))
      let errors ← orFail "errors" (atoi (record.getD 8 ""))
      let sockets ← orFail "sockets" (atoi (record.getD 9 ""))
      let minLatency ← orFail "min latency" (parseFloat (record.getD 10 ""))
      let maxLatency ← orFail "max latency" (parseFloat (record.getD 11 ""))
      let latency50 ← orFail "50% latency" (parseFloat (record.getD 12 ""))
      let latency90 ← orFail "90% latency" (parseFloat (record.getD 13 ""))
      let latency98 ← orFail "98% latency" (parseFloat (record.getD 14 ""))
      let latency99 ← orFail "99% latency" (parseFloat (record.getD 15 ""))
      pure { Name := record.getD 0 "", Throughput := throughput, AvgLatency := avgLatency,
             Threads := threads, Connections := connections, Duration := duration,
             Completed := completed, Successful := successful, Errors := errors,
             Sockets := sockets, MinLatency := minLatency, MaxLatency := maxLatency,
             Latency50 := latency50, Latency90 := latency90, Latency98 := latency98,
             Latency99 := latency99 }

/-- A record of sixteen columns in the order of the load generator's output. -/
def sampleRecord : List String :=
  ["run", "812.5", "12.5", "4", "10", "30.5", "24375", "24370", "5", "10",
   "1.5", "95.5", "11.5", "20.5", "40.5", "60.5"]

/-- The scan of a text without double quotes and carriage returns into records, as the
CSV reader splits it: a line feed ends a record, a comma ends a field, and an empty line
is skipped.  The arguments after the text are the current field (reversed), the fields of
the current record (reversed) and the records read so far (reversed). -/
def scanRecords : List Char → List Char → List String → List (List String) →
    List (List String)
  | [], field, fields, records =>
    if field.isEmpty && fields.isEmpty then records.reverse
    else ((String.mk field.reverse :: fields).reverse :: records).reverse
  | c :: cs, field, fields, records =>
    if c = Char.ofNat 10 then
      if field.isEmpty && fields.isEmpty then scanRecords cs [] [] records
      else scanRecords cs [] [] ((String.mk field.reverse :: fields).reverse :: records)
    else if c = Char.ofNat 44 then
      scanRecords cs [] (String.mk field.reverse :: fields) records
    else scanRecords cs (c :: field) fields records

/-- The lexical layer of the CSV reader on the texts of the examples, which contain no
double quote and no carriage return: such a text has no lexical error and its records are
those of `scanRecords`.  The quoting rules of the library are not part of it. -/
def plainRecords (output : String) : Option (List (List String)) :=
  some (scanRecords output.data [] [] [])

/-- An output of two lines of sixteen columns each. -/
def twoRecordOutput : String :=
  "run,812.5,12.5,4,10,30.5,24375,24370,5,10,1.5,95.5,11.5,20.5,40.5,60.5\n" ++
  "b,1,2,3,4,5,6,7,8,9,1,2,3,4,5,6\n"

/-- An output whose first line has sixteen columns and whose second line has two. -/
def raggedOutput : String :=
  "run,812.5,12.5,4,10,30.5,24375,24370,5,10,1.5,95.5,11.5,20.5,40.5,60.5\n" ++
  "second,record\n"

/-- A stand-in for `strconv.ParseFloat` that knows the decimal numerals of `sampleRecord`. -/
def sampleParseFloat : String → Option ℚ :=
  fun s => [("812.5", (1625 / 2 : ℚ)), ("12.5", 25 / 2), ("30.5", 61 / 2), ("1.5", 3 / 2),
    ("95.5", 191 / 2), ("11.5", 23 / 2), ("20.5", 41 / 2), ("40.5", 81 / 2),
    ("60.5", 121 / 2)].lookup s

/-- A stand-in for `strconv.Atoi` that knows the integer numerals of `sampleRecord`. -/
def sampleAtoi : String → Option Int :=
  fun s => [("4", (4 : Int)), ("10", 10), ("24375", 24375), ("24370", 24370), ("5", 5)].lookup s

/-- Rounding of a rational number to the nearest integer, a tie going to the even
integer. -/
def roundHalfEven (q : ℚ) : Int :=
  if 2 * Int.fract q < 1 then ⌊q⌋
  else if 1 < 2 * Int.fract q then ⌊q⌋ + 1
  else if ⌊q⌋ % 2 = 0 then ⌊q⌋ else ⌊q⌋ + 1

/-- Rounding of float64 (round to nearest, ties to even) on the rational numbers, for a
value in the range of the normal numbers: with `2^e ≤ |q| < 2^(e+1)` the result is the
multiple of `2^(e−52)` nearest to `q`.  Overflow and the subnormal numbers are not part of
it. -/
def round64 (q : ℚ) : ℚ :=
  (roundHalfEven (q / 2 ^ (Int.log 2 |q| - 52)) : ℚ) * 2 ^ (Int.log 2 |q| - 52)

/-- The rounding `rnd` of ordinary numbers applied to a float64 value; infinities and NaN
are unchanged. -/
def Float64.round (rnd : K → K) : Float64 K → Float64 K
  | .num x => .num (rnd x)
  | .posInf => .posInf
  | .negInf => .negInf
  | .nan => .nan

/-- The loop of `interpolateThroughput` with the conversion `float64(res.Connections)`
rounded by `rnd`. -/
def findAdjacentRounded (rnd : K → K) (predictedConnections : Float64 K) :
    List (TestResult K) → Option (TestResult K) →
      Option (TestResult K) × Option (TestResult K)
  | [], predictedLow => (predictedLow, none)
  | res :: rest, predictedLow =>
    if Float64.ge (.num (rnd (res.Connections : K))) predictedConnections then
      (predictedLow, some res)
    else
      findAdjacentRounded rnd predictedConnections rest (some res)

/-- Function `interpolateThroughput` with the result of every conversion and of every
arithmetic operation rounded by `rnd`, as the machine rounds it to float64.  With the
identity for `rnd` this is `interpolateThroughput`. -/
def interpolateThroughputRounded (rnd : K → K) (results : List (TestResult K))
    (predictedConnections : Float64 K) : Except AnalysisError (Float64 K) :=
  if results.length < 2 then
    .error .notEnoughResults
  else
    match findAdjacentRounded rnd predictedConnections results none with
    | (some predictedLow, some predictedHigh) =>
      let x1 : Float64 K := .num (rnd (predictedLow.Connections : K))
      let y1 : Float64 K := .num predictedLow.Throughput
      let x2 : Float64 K := .num (rnd (predictedHigh.Connections : K))
      let y2 : Float64 K := .num predictedHigh.Throughput
      .ok (Float64.round rnd (Float64.add y1
        (Float64.round rnd (Float64.div
          (Float64.round rnd (Float64.mul (Float64.round rnd (Float64.sub y2 y1))
            (Float64.round rnd (Float64.sub predictedConnections x1))))
          (Float64.round rnd (Float64.sub x2 x1))))))
    | _ => .error .outOfBounds

/-- Two samples with concurrency 1 and 2 whose throughputs are the float64 values nearest
to 104.44 and 900.13: `7349311641915228 · 2^-46` and `7917627212080087 · 2^-43`. -/
def roundingSamples : List (TestResult ℚ) :=
  [sample 1 0 (1837327910478807 / 17592186044416),
   sample 2 0 (7917627212080087 / 8796093022208)]

/-! ## The quadratic fit -/

section Fit

open Matrix

/-- Entry `i` of the product of the design matrix with a coefficient vector. -/
theorem designMatrix_mulVec {n : Nat} (x : Fin n → K) (v : Fin 3 → K) (i : Fin n) :
    (designMatrix x *ᵥ v) i = v 0 + x i * v 1 + x i * x i * v 2 := by
  simp [designMatrix, Matrix.mulVec, Matrix.dotProduct, Fin.sum_univ_three]

/-- The quadratic form of `XᵀX` is the squared length of `X v`. -/
theorem dotProduct_normal_mulVec {n : Nat} (X : Matrix (Fin n) (Fin 3) K) (v : Fin 3 → K) :
    v ⬝ᵥ ((Xᵀ * X) *ᵥ v) = (X *ᵥ v) ⬝ᵥ (X *ᵥ v) := by
  rw [← Matrix.mulVec_mulVec, Matrix.dotProduct_mulVec, Matrix.vecMul_transpose]

/-- A polynomial of degree at most two that vanishes at three distinct points is zero. -/
theorem coeffs_eq_zero_of_three_roots (v0 v1 v2 x1 x2 x3 : K)
    (h12 : x1 ≠ x2) (h13 : x1 ≠ x3) (h23 : x2 ≠ x3)
    (e1 : v0 + x1 * v1 + x1 * x1 * v2 = 0)
    (e2 : v0 + x2 * v1 + x2 * x2 * v2 = 0)
    (e3 : v0 + x3 * v1 + x3 * x3 * v2 = 0) : v0 = 0 ∧ v1 = 0 ∧ v2 = 0 := by
  have d12 : x1 - x2 ≠ 0 := sub_ne_zero.mpr h12
  have d13 : x1 - x3 ≠ 0 := sub_ne_zero.mpr h13
  have d23 : x2 - x3 ≠ 0 := sub_ne_zero.mpr h23
  have f12 : v1 + (x1 + x2) * v2 = 0 := by
    apply mul_left_cancel₀ d12
    linear_combination e1 - e2
  have f13 : v1 + (x1 + x3) * v2 = 0 := by
    apply mul_left_cancel₀ d13
    linear_combination e1 - e3
  have g2 : v2 = 0 := by
    apply mul_left_cancel₀ d23
    linear_combination f12 - f13
  have g1 : v1 = 0 := by
    rw [g2] at f12
    linear_combination f12
  have g0 : v0 = 0 := by
    rw [g1, g2] at e1
    linear_combination e1
  exact ⟨g0, g1, g2⟩

/-- With three pairwise distinct abscissas among the rows, `XᵀX` is nonsingular. -/
theorem det_normal_ne_zero {n : Nat} (x : Fin n → K) (i j k : Fin n)
    (hij : x i ≠ x j) (hik : x i ≠ x k) (hjk : x j ≠ x k) :
    ((designMatrix x)ᵀ * designMatrix x).det ≠ 0 := by
  intro hdet
  obtain ⟨v, hv, hMv⟩ := Matrix.exists_mulVec_eq_zero_iff.mpr hdet
  have hq : (designMatrix x *ᵥ v) ⬝ᵥ (designMatrix x *ᵥ v) = 0 := by
    rw [← dotProduct_normal_mulVec, hMv, Matrix.dotProduct_zero]
  have hXv : designMatrix x *ᵥ v = 0 := Matrix.dotProduct_self_eq_zero.mp hq
  have row : ∀ m, v 0 + x m * v 1 + x m * x m * v 2 = 0 := fun m => by
    rw [← designMatrix_mulVec, hXv]; rfl
  obtain ⟨g0, g1, g2⟩ :=
    coeffs_eq_zero_of_three_roots (v 0) (v 1) (v 2) (x i) (x j) (x k) hij hik hjk
      (row i) (row j) (row k)
  apply hv
  funext m
  fin_cases m <;> simp [g0, g1, g2]

/-- A 2×2 minor of a matrix whose entries are bounded by `m` is bounded by `2m²`. -/
theorem abs_minor_le (a b c d m : K) (ha : |a| ≤ m) (hb : |b| ≤ m) (hc : |c| ≤ m)
    (hd : |d| ≤ m) : |a * b - c * d| ≤ 2 * m ^ 2 ∧ |-(a * b) + c * d| ≤ 2 * m ^ 2 := by
  have hm : 0 ≤ m := le_trans (abs_nonneg a) ha
  have h1 : |a * b| ≤ m * m := by
    rw [abs_mul]; exact mul_le_mul ha hb (abs_nonneg b) hm
  have h2 : |c * d| ≤ m * m := by
    rw [abs_mul]; exact mul_le_mul hc hd (abs_nonneg d) hm
  constructor
  · calc |a * b - c * d| ≤ |a * b| + |c * d| := abs_sub _ _
      _ ≤ 2 * m ^ 2 := by nlinarith
  · calc |-(a * b) + c * d| ≤ |-(a * b)| + |c * d| := abs_add _ _
      _ = |a * b| + |c * d| := by rw [abs_neg]
      _ ≤ 2 * m ^ 2 := by nlinarith

/-- The max-row-sum norm of a 3×3 matrix with entries bounded by `m` is at most `3m`. -/
theorem maxRowSum_le (M : Matrix (Fin 3) (Fin 3) K) (m : K) (h : ∀ i j, |M i j| ≤ m) :
    maxRowSum M ≤ 3 * m := by
  unfold maxRowSum
  refine max_le (max_le ?_ ?_) ?_ <;>
    linarith [h 0 0, h 0 1, h 0 2, h 1 0, h 1 1, h 1 2, h 2 0, h 2 1, h 2 2]

/-- A sufficient condition for passing the condition check: entries bounded by `m` and a
determinant of absolute value at least `d` with `18 m³ ≤ 1e16 · d`. -/
theorem conditionNumber_le (M : Matrix (Fin 3) (Fin 3) K) (m d : K)
    (hm : ∀ i j, |M i j| ≤ m) (hd : 0 < d) (hdet : d ≤ |M.det|)
    (h : 18 * m ^ 3 ≤ ConditionTolerance * d) :
    conditionNumber M ≤ ConditionTolerance := by
  have hm0 : 0 ≤ m := le_trans (abs_nonneg _) (hm 0 0)
  have hdetpos : 0 < |M.det| := lt_of_lt_of_le hd hdet
  have hadj : ∀ i j, |(M.det⁻¹ • M.adjugate) i j| ≤ 2 * m ^ 2 / d := by
    intro i j
    have hent : |M.adjugate i j| ≤ 2 * m ^ 2 := by
      rw [Matrix.adjugate_fin_three]
      fin_cases i <;> fin_cases j <;>
        simp only [Matrix.of_apply, Matrix.cons_val', Matrix.cons_val_zero, Matrix.cons_val_one,
          Matrix.head_cons, Matrix.cons_val_two, Matrix.tail_cons, Matrix.empty_val',
          Matrix.cons_val_fin_one, Fin.zero_eta, Fin.mk_one, Fin.reduceFinMk] <;>
        first
        | exact (abs_minor_le _ _ _ _ m (hm _ _) (hm _ _) (hm _ _) (hm _ _)).1
        | exact (abs_minor_le _ _ _ _ m (hm _ _) (hm _ _) (hm _ _) (hm _ _)).2
    rw [Matrix.smul_apply, smul_eq_mul, abs_mul, abs_inv, inv_mul_eq_div]
    calc |M.adjugate i j| / |M.det| ≤ 2 * m ^ 2 / |M.det| :=
          div_le_div_of_nonneg_right hent hdetpos.le
      _ ≤ 2 * m ^ 2 / d := div_le_div_of_nonneg_left (by positivity) hd hdet
  have h1 := maxRowSum_le M m hm
  have h2 := maxRowSum_le (M.det⁻¹ • M.adjugate) (2 * m ^ 2 / d) hadj
  have h0 : 0 ≤ maxRowSum (M.det⁻¹ • M.adjugate) := by
    unfold maxRowSum
    exact le_max_of_le_right (by positivity)
  calc conditionNumber M = maxRowSum M * maxRowSum (M.det⁻¹ • M.adjugate) := rfl
    _ ≤ (3 * m) * (3 * (2 * m ^ 2 / d)) := mul_le_mul h1 h2 h0 (by positivity)
    _ = 18 * m ^ 3 / d := by ring
    _ ≤ ConditionTolerance := by
        rw [div_le_iff₀ hd]; exact h

/-- On a nonsingular matrix that passes the condition check the library call yields the
inverse matrix. -/
theorem inverse_eq_some (M : Matrix (Fin 3) (Fin 3) K) (hdet : M.det ≠ 0)
    (hcond : conditionNumber M ≤ ConditionTolerance) : inverse M = some M⁻¹ := by
  rw [inverse, if_neg hdet, if_neg (not_lt.mpr hcond), Matrix.inv_def, Ring.inverse_eq_inv']

/-- The library call fails exactly on singular and on ill-conditioned matrices. -/
theorem inverse_eq_none_iff (M : Matrix (Fin 3) (Fin 3) K) :
    inverse M = none ↔ M.det = 0 ∨ ConditionTolerance < conditionNumber M := by
  unfold inverse
  by_cases hdet : M.det = 0
  · simp [hdet]
  · by_cases hcond : ConditionTolerance < conditionNumber M
    · simp [hdet, hcond]
    · simp [hdet, hcond]

/-- Whatever the library call yields is the inverse matrix of a nonsingular matrix. -/
theorem inverse_eq_some_imp (M Minv : Matrix (Fin 3) (Fin 3) K) (h : inverse M = some Minv) :
    M.det ≠ 0 ∧ conditionNumber M ≤ ConditionTolerance ∧ Minv = M⁻¹ := by
  unfold inverse at h
  by_cases hdet : M.det = 0
  · simp [hdet] at h
  · by_cases hcond : ConditionTolerance < conditionNumber M
    · simp [hdet, hcond] at h
    · rw [if_neg hdet, if_neg hcond] at h
      injection h with h
      refine ⟨hdet, not_lt.mp hcond, ?_⟩
      rw [← h, Matrix.inv_def, Ring.inverse_eq_inv']

/-- When `XᵀX` is nonsingular and passes the condition check, `quadraticRegression`
returns the solution of the normal equations `XᵀX β = Xᵀy`: any `β` that solves them is
the result. -/
theorem quadraticRegression_eq_of_normal (results : List (TestResult K))
    (p : LatencyPercentile) (β : Fin 3 → K) (hlen : 3 ≤ results.length)
    (hdet : ((designMatrix (concurrencyOf results))ᵀ *
      designMatrix (concurrencyOf results)).det ≠ 0)
    (hcond : conditionNumber ((designMatrix (concurrencyOf results))ᵀ *
      designMatrix (concurrencyOf results)) ≤ ConditionTolerance)
    (hβ : ((designMatrix (concurrencyOf results))ᵀ * designMatrix (concurrencyOf results)) *ᵥ β
      = (designMatrix (concurrencyOf results))ᵀ *ᵥ latencyOf results p) :
    quadraticRegression results p = .ok (β 2, β 1, β 0) := by
  have hlt : ¬ results.length < 3 := by omega
  simp only [quadraticRegression, hlt, if_false, inverse_eq_some _ hdet hcond]
  rw [← hβ, Matrix.mulVec_mulVec,
    Matrix.nonsing_inv_mul _ (isUnit_iff_ne_zero.mpr hdet), Matrix.one_mulVec]

/-- The 90th-percentile latency of a sample built by `sample`. -/
theorem sample_Latency90 (c : Int) (l t : K) : (sample c l t).Latency Latency90 = l := by
  have h : ¬ Latency90 = Latency50 := by decide
  simp [TestResult.Latency, sample, h]

/-- A sum over a list is the sum over its positions. -/
theorem sum_map_eq_sum_get {α : Type} (l : List α) (f : α → K) :
    (l.map f).sum = ∑ i : Fin l.length, f (l.get i) := by
  induction l with
  | nil => simp
  | cons a l ih =>
    rw [List.map_cons, List.sum_cons, ih]
    exact (Fin.sum_univ_succ fun i : Fin (l.length + 1) => f ((a :: l).get i)).symm

/-- The matrix `XᵀX` in terms of the power sums of the concurrency values. -/
theorem normal_eq_powerSums (results : List (TestResult K)) :
    (designMatrix (concurrencyOf results))ᵀ * designMatrix (concurrencyOf results) =
      !![powerSum results 0, powerSum results 1, powerSum results 2;
         powerSum results 1, powerSum results 2, powerSum results 3;
         powerSum results 2, powerSum results 3, powerSum results 4] := by
  ext i j
  rw [Matrix.mul_apply]
  fin_cases i <;> fin_cases j <;>
    simp only [powerSum, sum_map_eq_sum_get, Matrix.of_apply, Matrix.cons_val',
      Matrix.cons_val_zero, Matrix.cons_val_one, Matrix.head_cons, Matrix.cons_val_two,
      Matrix.tail_cons, Matrix.empty_val', Matrix.cons_val_fin_one, Fin.zero_eta, Fin.mk_one,
      Fin.reduceFinMk] <;>
    refine Finset.sum_congr rfl fun k _ => ?_ <;>
    (simp [designMatrix, concurrencyOf]; try ring)

/-- The sum of squared residuals is the squared length of `X β − y`. -/
theorem sumSquaredResiduals_eq (results : List (TestResult K)) (p : LatencyPercentile)
    (a b c : K) :
    sumSquaredResiduals results p a b c =
      (designMatrix (concurrencyOf results) *ᵥ ![c, b, a] - latencyOf results p) ⬝ᵥ
        (designMatrix (concurrencyOf results) *ᵥ ![c, b, a] - latencyOf results p) := by
  rw [sumSquaredResiduals, sum_map_eq_sum_get, Matrix.dotProduct]
  refine Finset.sum_congr rfl fun i _ => ?_
  simp only [Pi.sub_apply, designMatrix_mulVec, concurrencyOf, latencyOf]
  simp only [Matrix.cons_val_zero, Matrix.cons_val_one, Matrix.head_cons, Matrix.cons_val_two,
    Matrix.tail_cons]
  ring

/-- A solution of the normal equations has the least squared residual length. -/
theorem normal_solution_minimises {n : Nat} (X : Matrix (Fin n) (Fin 3) K) (y : Fin n → K)
    (β β' : Fin 3 → K) (hβ : (Xᵀ * X) *ᵥ β = Xᵀ *ᵥ y) :
    (X *ᵥ β - y) ⬝ᵥ (X *ᵥ β - y) ≤ (X *ᵥ β' - y) ⬝ᵥ (X *ᵥ β' - y) := by
  have horth : Xᵀ *ᵥ (X *ᵥ β - y) = 0 := by
    rw [Matrix.mulVec_sub, Matrix.mulVec_mulVec, hβ, sub_self]
  have hcross : (X *ᵥ β - y) ⬝ᵥ (X *ᵥ (β' - β)) = 0 := by
    rw [Matrix.dotProduct_mulVec, ← Matrix.mulVec_transpose, horth, Matrix.zero_dotProduct]
  have hsplit : X *ᵥ β' - y = (X *ᵥ β - y) + X *ᵥ (β' - β) := by
    rw [Matrix.mulVec_sub]; abel
  have hnonneg : 0 ≤ (X *ᵥ (β' - β)) ⬝ᵥ (X *ᵥ (β' - β)) := by
    rw [Matrix.dotProduct]
    exact Finset.sum_nonneg fun i _ => mul_self_nonneg _
  rw [hsplit, Matrix.add_dotProduct, Matrix.dotProduct_add, Matrix.dotProduct_add, hcross,
    Matrix.dotProduct_comm (X *ᵥ (β' - β)) (X *ᵥ β - y), hcross]
  linarith

/-- The determinant of `XᵀX` in terms of the power sums. -/
theorem det_normal_eq (results : List (TestResult K)) (s0 s1 s2 s3 s4 : K)
    (h0 : powerSum results 0 = s0) (h1 : powerSum results 1 = s1)
    (h2 : powerSum results 2 = s2) (h3 : powerSum results 3 = s3)
    (h4 : powerSum results 4 = s4) :
    ((designMatrix (concurrencyOf results))ᵀ * designMatrix (concurrencyOf results)).det =
      s0 * s2 * s4 - s0 * s3 * s3 - s1 * s1 * s4 + s1 * s3 * s2 + s2 * s1 * s3
        - s2 * s2 * s2 := by
  rw [normal_eq_powerSums, Matrix.det_fin_three, h0, h1, h2, h3, h4]
  simp

/-- A check of the condition number through the power sums: when they are bounded by `m`
and the determinant has absolute value at least `d > 0` with `18 m³ ≤ 1e16 · d`, the
matrix `XᵀX` is nonsingular and passes the condition check. -/
theorem wellConditioned_of_powerSums (results : List (TestResult K))
    (s0 s1 s2 s3 s4 m d : K)
    (h0 : powerSum results 0 = s0) (h1 : powerSum results 1 = s1)
    (h2 : powerSum results 2 = s2) (h3 : powerSum results 3 = s3)
    (h4 : powerSum results 4 = s4)
    (hm : |s0| ≤ m ∧ |s1| ≤ m ∧ |s2| ≤ m ∧ |s3| ≤ m ∧ |s4| ≤ m) (hd : 0 < d)
    (hdet : d ≤ |s0 * s2 * s4 - s0 * s3 * s3 - s1 * s1 * s4 + s1 * s3 * s2 + s2 * s1 * s3
      - s2 * s2 * s2|)
    (h : 18 * m ^ 3 ≤ ConditionTolerance * d) :
    ((designMatrix (concurrencyOf results))ᵀ * designMatrix (concurrencyOf results)).det ≠ 0 ∧
      conditionNumber ((designMatrix (concurrencyOf results))ᵀ *
        designMatrix (concurrencyOf results)) ≤ ConditionTolerance := by
  have hdetval := det_normal_eq results s0 s1 s2 s3 s4 h0 h1 h2 h3 h4
  obtain ⟨m0, m1, m2, m3, m4⟩ := hm
  constructor
  · intro hzero
    rw [hdetval] at hzero
    rw [hzero, abs_zero] at hdet
    exact absurd hd (not_lt.mpr hdet)
  · apply conditionNumber_le _ m d _ hd (by rw [hdetval]; exact hdet) h
    intro i j
    rw [normal_eq_powerSums, h0, h1, h2, h3, h4]
    fin_cases i <;> fin_cases j <;> simpa

/-- A matrix whose last row sum times the absolute value of the first entry of its
inverse exceeds the tolerance fails the condition check. -/
theorem conditionNumber_gt (M : Matrix (Fin 3) (Fin 3) K)
    (h : ConditionTolerance <
      (|M 2 0| + |M 2 1| + |M 2 2|) * |(M.det⁻¹ • M.adjugate) 0 0|) :
    ConditionTolerance < conditionNumber M := by
  have h1 : |M 2 0| + |M 2 1| + |M 2 2| ≤ maxRowSum M := le_max_right _ _
  have h2 : |(M.det⁻¹ • M.adjugate) 0 0| ≤ maxRowSum (M.det⁻¹ • M.adjugate) := by
    unfold maxRowSum
    refine le_trans ?_ (le_max_of_le_left (le_max_left _ _))
    have := abs_nonneg ((M.det⁻¹ • M.adjugate) 0 1)
    have := abs_nonneg ((M.det⁻¹ • M.adjugate) 0 2)
    linarith
  have h3 : 0 ≤ |M 2 0| + |M 2 1| + |M 2 2| := by positivity
  calc ConditionTolerance < (|M 2 0| + |M 2 1| + |M 2 2|) * |(M.det⁻¹ • M.adjugate) 0 0| := h
    _ ≤ maxRowSum M * maxRowSum (M.det⁻¹ • M.adjugate) :=
        mul_le_mul h1 h2 (abs_nonneg _) (le_trans h3 h1)

/-- With three or more samples and an `XᵀX` that is singular or fails the condition
check, the fit reports the inversion error, and only then. -/
theorem quadraticRegression_invertMatrix_iff (results : List (TestResult K))
    (p : LatencyPercentile) (hlen : 3 ≤ results.length) :
    quadraticRegression results p = .error .invertMatrix ↔
      ((designMatrix (concurrencyOf results))ᵀ * designMatrix (concurrencyOf results)).det = 0 ∨
        ConditionTolerance < conditionNumber ((designMatrix (concurrencyOf results))ᵀ *
          designMatrix (concurrencyOf results)) := by
  have hlt : ¬ results.length < 3 := by omega
  rw [← inverse_eq_none_iff]
  cases hinv : inverse ((designMatrix (concurrencyOf results))ᵀ *
      designMatrix (concurrencyOf results)) with
  | none => simp [quadraticRegression, hlt, hinv]
  | some Minv => simp [quadraticRegression, hlt, hinv]

/-- The power sums of the samples with concurrency 1, 2, 3. -/
theorem powerSum_parabolaSamples :
    powerSum parabolaSamples 0 = 3 ∧ powerSum parabolaSamples 1 = 6 ∧
      powerSum parabolaSamples 2 = 14 ∧ powerSum parabolaSamples 3 = 36 ∧
      powerSum parabolaSamples 4 = 98 ∧
      powerSum zigzagSamples 0 = 3 ∧ powerSum zigzagSamples 1 = 6 ∧
      powerSum zigzagSamples 2 = 14 ∧ powerSum zigzagSamples 3 = 36 ∧
      powerSum zigzagSamples 4 = 98 := by
  refine ⟨?_, ?_, ?_, ?_, ?_, ?_, ?_, ?_, ?_, ?_⟩ <;>
    norm_num [powerSum, parabolaSamples, zigzagSamples, sample]

/-- The power sums of the samples with concurrency 1, 100, 10000. -/
theorem powerSum_wideSamples :
    powerSum (wideSamples : List (TestResult K)) 0 = 3 ∧
      powerSum (wideSamples : List (TestResult K)) 1 = 10101 ∧
      powerSum (wideSamples : List (TestResult K)) 2 = 100010001 ∧
      powerSum (wideSamples : List (TestResult K)) 3 = 1000001000001 ∧
      powerSum (wideSamples : List (TestResult K)) 4 = 10000000100000001 := by
  refine ⟨?_, ?_, ?_, ?_, ?_⟩ <;> norm_num [powerSum, wideSamples, sample]

/-- Counterexample to C1 as stated: the samples with concurrency 1, 100, 10000 and
latencies on the line `y = 0·x² + 1·x + 0` have three distinct concurrency values, but the
condition number of `XᵀX` exceeds `1e16`, the inversion reports an error and
`quadraticRegression` fails instead of returning `(0, 1, 0)`. -/
theorem quadraticRegression_ill_conditioned :
    3 ≤ (wideSamples : List (TestResult ℚ)).length ∧
      (∃ r1 ∈ (wideSamples : List (TestResult ℚ)), ∃ r2 ∈ (wideSamples : List (TestResult ℚ)),
        ∃ r3 ∈ (wideSamples : List (TestResult ℚ)),
          r1.Connections ≠ r2.Connections ∧ r1.Connections ≠ r3.Connections ∧
            r2.Connections ≠ r3.Connections) ∧
      (∀ r ∈ (wideSamples : List (TestResult ℚ)),
        r.Latency Latency90 = 0 * (r.Connections : ℚ) ^ 2 + 1 * (r.Connections : ℚ) + 0) ∧
      quadraticRegression (wideSamples : List (TestResult ℚ)) Latency90 =
        .error .invertMatrix := by
  refine ⟨by simp [wideSamples],
    ⟨sample 1 1 0, by simp [wideSamples], sample 100 100 0, by simp [wideSamples],
      sample 10000 10000 0, by simp [wideSamples], by decide, by decide, by decide⟩, ?_, ?_⟩
  · intro r hr
    simp only [wideSamples, List.mem_cons, List.mem_singleton, List.not_mem_nil,
      or_false] at hr
    rcases hr with rfl | rfl | rfl <;> rw [sample_Latency90] <;> norm_num [sample]
  · rw [quadraticRegression_invertMatrix_iff _ _ (by simp [wideSamples])]
    right
    apply conditionNumber_gt
    obtain ⟨h0, h1, h2, h3, h4⟩ := @powerSum_wideSamples ℚ _
    rw [normal_eq_powerSums, h0, h1, h2, h3, h4]
    have hinv : ((!![(3 : ℚ), 10101, 100010001; 10101, 100010001, 1000001000001;
        100010001, 1000001000001, 10000000100000001]).det⁻¹ •
        (!![(3 : ℚ), 10101, 100010001; 10101, 100010001, 1000001000001;
        100010001, 1000001000001, 10000000100000001]).adjugate) 0 0 =
        333367336667 / 326634663267 := by
      rw [Matrix.det_fin_three, Matrix.adjugate_fin_three_of]
      norm_num
    rw [hinv]
    norm_num [ConditionTolerance, abs_of_pos]

/-- Claim C1, amended.  Samples (three or more, with at least three distinct concurrency
values) whose `XᵀX` passes the condition check of the matrix inversion (condition number
at most `1e16`) and whose selected latency lies exactly on the quadratic
`a0 x² + b0 x + c0` of their concurrency `x`: in exact arithmetic `quadraticRegression`
succeeds and returns exactly `(a0, b0, c0)`. -/
theorem quadraticRegression_recovers_exact_quadratic (results : List (TestResult K))
    (p : LatencyPercentile) (a0 b0 c0 : K) (hlen : 3 ≤ results.length)
    (hdistinct : ∃ r1 ∈ results, ∃ r2 ∈ results, ∃ r3 ∈ results,
      r1.Connections ≠ r2.Connections ∧ r1.Connections ≠ r3.Connections ∧
        r2.Connections ≠ r3.Connections)
    (hcond : conditionNumber ((designMatrix (concurrencyOf results))ᵀ *
      designMatrix (concurrencyOf results)) ≤ ConditionTolerance)
    (hquad : ∀ r ∈ results,
      r.Latency p = a0 * (r.Connections : K) ^ 2 + b0 * (r.Connections : K) + c0) :
    quadraticRegression results p = .ok (a0, b0, c0) := by
  obtain ⟨r1, h1, r2, h2, r3, h3, h12, h13, h23⟩ := hdistinct
  obtain ⟨i, rfl⟩ := List.mem_iff_get.mp h1
  obtain ⟨j, rfl⟩ := List.mem_iff_get.mp h2
  obtain ⟨k, rfl⟩ := List.mem_iff_get.mp h3
  have hdet := det_normal_ne_zero (concurrencyOf results) i j k
    (fun h => h12 (Int.cast_injective h)) (fun h => h13 (Int.cast_injective h))
    (fun h => h23 (Int.cast_injective h))
  have hy : designMatrix (concurrencyOf results) *ᵥ ![c0, b0, a0] = latencyOf results p := by
    funext m
    rw [designMatrix_mulVec]
    simp only [latencyOf, concurrencyOf, hquad _ (List.get_mem results m.1 m.2)]
    simp
    ring
  have := quadraticRegression_eq_of_normal results p ![c0, b0, a0] hlen hdet hcond
    (by rw [← hy, Matrix.mulVec_mulVec])
  simpa using this

/-- Witness for C1, amended: the three samples (1,1), (2,4), (3,9) lie on `y = x²`, their
`XᵀX` passes the condition check and the fit returns `(1, 0, 0)`. -/
theorem quadraticRegression_recovers_exact_quadratic_witness :
    quadraticRegression parabolaSamples Latency90 = .ok (1, 0, 0) :=
  quadraticRegression_recovers_exact_quadratic parabolaSamples Latency90 1 0 0 (by decide)
    ⟨sample 1 1 0, by simp [parabolaSamples], sample 2 4 0, by simp [parabolaSamples],
      sample 3 9 0, by simp [parabolaSamples], by decide, by decide, by decide⟩
    (wellConditioned_of_powerSums parabolaSamples 3 6 14 36 98 98 4
      powerSum_parabolaSamples.1 powerSum_parabolaSamples.2.1 powerSum_parabolaSamples.2.2.1
      powerSum_parabolaSamples.2.2.2.1 powerSum_parabolaSamples.2.2.2.2.1
      (by norm_num [abs_of_pos]) (by norm_num) (by norm_num [abs_of_pos])
      (by norm_num [ConditionTolerance])).2
    (by
      intro r hr
      simp only [parabolaSamples, List.mem_cons, List.mem_singleton, List.not_mem_nil,
        or_false] at hr
      rcases hr with rfl | rfl | rfl <;> rw [sample_Latency90] <;> norm_num [sample])

/-- Claim C2.  For three or more samples whose `XᵀX` is invertible (nonzero determinant):
whenever `quadraticRegression` returns coefficients `(a, b, c)`, they minimise the sum of
squared residuals, no other triple giving a strictly smaller sum; and it does return
coefficients when `XᵀX` also passes the condition check of the matrix inversion
(condition number at most `1e16`). -/
theorem quadraticRegression_minimises_squared_residuals (results : List (TestResult K))
    (p : LatencyPercentile) (hlen : 3 ≤ results.length)
    (hinv : ((designMatrix (concurrencyOf results))ᵀ *
      designMatrix (concurrencyOf results)).det ≠ 0) :
    (∀ a b c : K, quadraticRegression results p = .ok (a, b, c) →
        ∀ a' b' c' : K,
          sumSquaredResiduals results p a b c ≤ sumSquaredResiduals results p a' b' c') ∧
      (conditionNumber ((designMatrix (concurrencyOf results))ᵀ *
          designMatrix (concurrencyOf results)) ≤ ConditionTolerance →
        ∃ a b c : K, quadraticRegression results p = .ok (a, b, c)) := by
  set X := designMatrix (concurrencyOf results) with hX
  set y := latencyOf results p with hy
  have hβ : (Xᵀ * X) *ᵥ ((Xᵀ * X)⁻¹ *ᵥ (Xᵀ *ᵥ y)) = Xᵀ *ᵥ y := by
    rw [Matrix.mulVec_mulVec, Matrix.mul_nonsing_inv _ (isUnit_iff_ne_zero.mpr hinv),
      Matrix.one_mulVec]
  have hlt : ¬ results.length < 3 := by omega
  constructor
  · intro a b c hok a' b' c'
    cases hi : inverse (Xᵀ * X) with
    | none => simp [quadraticRegression, hlt, ← hX, hi] at hok
    | some Minv =>
      obtain ⟨-, -, rfl⟩ := inverse_eq_some_imp _ _ hi
      simp only [quadraticRegression, hlt, if_false, ← hX, ← hy, hi, Except.ok.injEq,
        Prod.mk.injEq] at hok
      obtain ⟨rfl, rfl, rfl⟩ := hok
      rw [sumSquaredResiduals_eq, sumSquaredResiduals_eq]
      have hvec : ![((Xᵀ * X)⁻¹ *ᵥ (Xᵀ *ᵥ y)) 0, ((Xᵀ * X)⁻¹ *ᵥ (Xᵀ *ᵥ y)) 1,
          ((Xᵀ * X)⁻¹ *ᵥ (Xᵀ *ᵥ y)) 2] = (Xᵀ * X)⁻¹ *ᵥ (Xᵀ *ᵥ y) := by
        funext m
        fin_cases m <;> rfl
      rw [hvec]
      exact normal_solution_minimises X y _ _ hβ
  · intro hcond
    exact ⟨_, _, _, quadraticRegression_eq_of_normal results p _ hlen hinv hcond hβ⟩

/-- Witness for C2: the samples (1,1), (2,3), (3,2) have three distinct concurrency
values, so their `XᵀX` is invertible; it passes the condition check, the fit returns
coefficients and they minimise the squared residuals. -/
theorem quadraticRegression_minimises_squared_residuals_witness :
    ∃ a b c : ℚ, quadraticRegression zigzagSamples Latency90 = .ok (a, b, c) ∧
      ∀ a' b' c' : ℚ, sumSquaredResiduals zigzagSamples Latency90 a b c ≤
        sumSquaredResiduals zigzagSamples Latency90 a' b' c' := by
  have hwell := wellConditioned_of_powerSums zigzagSamples 3 6 14 36 98 98 4
    powerSum_parabolaSamples.2.2.2.2.2.1 powerSum_parabolaSamples.2.2.2.2.2.2.1
    powerSum_parabolaSamples.2.2.2.2.2.2.2.1 powerSum_parabolaSamples.2.2.2.2.2.2.2.2.1
    powerSum_parabolaSamples.2.2.2.2.2.2.2.2.2
    (by norm_num [abs_of_pos]) (by norm_num) (by norm_num [abs_of_pos])
    (by norm_num [ConditionTolerance])
  have h := quadraticRegression_minimises_squared_residuals zigzagSamples Latency90
    (by decide) hwell.1
  obtain ⟨a, b, c, hok⟩ := h.2 hwell.2
  exact ⟨a, b, c, hok, h.1 a b c hok⟩

end Fit

/-! ## The root solver -/

section Solver

/-- A quotient of ordinary numbers with a nonzero divisor is an ordinary number. -/
theorem Float64.div_num_of_ne_zero (x y : K) (hy : y ≠ 0) :
    Float64.div (.num x) (.num y) = .num (x / y) := by
  simp [Float64.div, hy]

/-- With a nonnegative discriminant and `a ≠ 0` the solver returns the ordinary number
`(-b + sqrt delta) / (2a)`. -/
theorem predictConcurrencyQuad_eq (sqrt : K → K) (a b c : K) (t : Int) (ha : a ≠ 0)
    (hd : 0 ≤ b * b - 4 * a * (c - (t : K))) :
    predictConcurrencyQuad sqrt a b c t =
      .ok (.num ((-b + sqrt (b * b - 4 * a * (c - (t : K)))) / (2 * a))) := by
  have h2a : 2 * a ≠ 0 := mul_ne_zero two_ne_zero ha
  simp [predictConcurrencyQuad, not_lt.mpr hd, Float64.div_num_of_ne_zero _ _ h2a]

/-- Both `(-b ± s) / (2a)` solve `a x² + b x + c = t` when `s² = b² − 4a(c − t)`. -/
theorem quadratic_formula_root (a b c t s : K) (ha : a ≠ 0)
    (hs : s * s = b * b - 4 * a * (c - t)) :
    a * ((-b + s) / (2 * a)) ^ 2 + b * ((-b + s) / (2 * a)) + c = t ∧
      a * ((-b - s) / (2 * a)) ^ 2 + b * ((-b - s) / (2 * a)) + c = t := by
  constructor
  · field_simp
    linear_combination (2 * a ^ 2) * hs
  · field_simp
    linear_combination (2 * a ^ 2) * hs

/-- Claim C9.  `predictConcurrencyQuad` fails exactly when the discriminant
`b² − 4a(c − target)` is strictly negative, the error then being the no-real-solutions
error; in particular it fails for `a = 1, b = 0, c = 100, target = 50`. -/
theorem predictConcurrencyQuad_fails_iff_negative_discriminant (sqrt : K → K) (a b c : K)
    (t : Int) :
    ((∃ e, predictConcurrencyQuad sqrt a b c t = .error e) ↔
        b * b - 4 * a * (c - (t : K)) < 0) ∧
      (predictConcurrencyQuad sqrt a b c t = .error (.noRealSolutions t) ↔
        b * b - 4 * a * (c - (t : K)) < 0) ∧
      predictConcurrencyQuad sqrt (1 : K) 0 100 50 = .error (.noRealSolutions 50) := by
  refine ⟨?_, ?_, ?_⟩
  · by_cases h : b * b - 4 * a * (c - (t : K)) < 0 <;> simp [predictConcurrencyQuad, h]
  · by_cases h : b * b - 4 * a * (c - (t : K)) < 0 <;> simp [predictConcurrencyQuad, h]
  · have h : (0 : K) * 0 - 4 * 1 * (100 - ((50 : Int) : K)) < 0 := by norm_num
    rw [predictConcurrencyQuad]
    exact if_pos h

/-- Over the reals, when `s ≥ 0` squares to the discriminant and `a ≠ 0`, the solver
returns `(-b + s) / (2a)`. -/
theorem predictConcurrencyQuad_real_eq (a b c : ℝ) (t : Int) (s : ℝ) (ha : a ≠ 0)
    (hs0 : 0 ≤ s) (hs : s * s = b * b - 4 * a * (c - (t : ℝ))) :
    predictConcurrencyQuad Real.sqrt a b c t = .ok (.num ((-b + s) / (2 * a))) := by
  have hd : 0 ≤ b * b - 4 * a * (c - (t : ℝ)) := by rw [← hs]; exact mul_self_nonneg s
  rw [predictConcurrencyQuad_eq Real.sqrt a b c t ha hd,
    (Real.sqrt_eq_iff_mul_self_eq hd hs0).mpr hs.symm]

/-- Over the reals, with `a = 0` the discriminant is `b²` and the solver divides
`-b + |b|` by zero: the result is NaN when `b ≥ 0` and `+Inf` when `b < 0`. -/
theorem predictConcurrencyQuad_real_zero (b c : ℝ) (t : Int) :
    predictConcurrencyQuad Real.sqrt 0 b c t = .ok (if 0 ≤ b then .nan else .posInf) := by
  have hd : ¬ b * b < 0 := not_lt.mpr (mul_self_nonneg b)
  have hval : predictConcurrencyQuad Real.sqrt 0 b c t =
      .ok (Float64.div (.num (-b + |b|)) (.num 0)) := by
    simp [predictConcurrencyQuad, hd, Real.sqrt_mul_self_eq_abs]
  rw [hval]
  by_cases hb : 0 ≤ b
  · simp [Float64.div, hb, abs_of_nonneg hb]
  · have hb' : b < 0 := not_le.mp hb
    have hne : -b + -b ≠ 0 := by linarith
    have hpos : 0 < -b + -b := by linarith
    simp [Float64.div, Float64.infOfSign, hb, abs_of_neg hb', hne, hpos]

/-- Counterexample to C4 as stated: with `a = 0, b = 1, c = 0, target = 1` the
discriminant is `1 ≥ 0`, yet the solver returns NaN (`0 / 0`), not a number `x` with
`a x² + b x + c = target`. -/
theorem predictConcurrencyQuad_zero_a_not_root :
    (0 : ℝ) ≤ 1 * 1 - 4 * 0 * (0 - ((1 : Int) : ℝ)) ∧
      predictConcurrencyQuad Real.sqrt (0 : ℝ) 1 0 1 = .ok .nan ∧
      ¬ ∃ x : ℝ, predictConcurrencyQuad Real.sqrt (0 : ℝ) 1 0 1 = .ok (.num x) ∧
        0 * x ^ 2 + 1 * x + 0 = ((1 : Int) : ℝ) := by
  have h : predictConcurrencyQuad Real.sqrt (0 : ℝ) 1 0 1 = .ok .nan := by
    rw [predictConcurrencyQuad_real_zero]; simp
  refine ⟨by norm_num, h, ?_⟩
  rintro ⟨x, hx, -⟩
  rw [h] at hx
  cases hx

/-- Claim C4, amended.  For real coefficients with `a ≠ 0` and every integer target with
discriminant `b² − 4a(c − target) ≥ 0`, `predictConcurrencyQuad` succeeds and the number
`x` it returns satisfies `a x² + b x + c = target`. -/
theorem predictConcurrencyQuad_returns_root (a b c : ℝ) (t : Int) (ha : a ≠ 0)
    (hd : 0 ≤ b * b - 4 * a * (c - (t : ℝ))) :
    ∃ x : ℝ, predictConcurrencyQuad Real.sqrt a b c t = .ok (.num x) ∧
      a * x ^ 2 + b * x + c = (t : ℝ) :=
  ⟨_, predictConcurrencyQuad_eq Real.sqrt a b c t ha hd,
    (quadratic_formula_root a b c (t : ℝ) _ ha (Real.mul_self_sqrt hd)).1⟩

/-- Witness for C4, amended: `a = 1, b = 0, c = 0, target = 4`. -/
theorem predictConcurrencyQuad_returns_root_witness :
    ∃ x : ℝ, predictConcurrencyQuad Real.sqrt 1 0 0 4 = .ok (.num x) ∧
      1 * x ^ 2 + 0 * x + 0 = ((4 : Int) : ℝ) :=
  predictConcurrencyQuad_returns_root 1 0 0 4 (by norm_num) (by norm_num)

/-- Claim C7, evaluated at `a = -1, b = 1, c = 3, target = 1`: the equation
`-x² + x + 3 = 1` has the positive root `2`, and the solver returns the other root,
`-1`, which is not positive. -/
theorem predictConcurrencyQuad_returns_negative_root :
    predictConcurrencyQuad Real.sqrt (-1 : ℝ) 1 3 1 = .ok (.num (-1)) ∧
      (-1 : ℝ) * 2 ^ 2 + 1 * 2 + 3 = ((1 : Int) : ℝ) ∧ ¬ (0 : ℝ) < -1 := by
  refine ⟨?_, by norm_num, by norm_num⟩
  rw [predictConcurrencyQuad_real_eq (-1) 1 3 1 3 (by norm_num) (by norm_num) (by norm_num)]
  norm_num

/-- Claim C8, evaluated at `a = -1, b = 0, c = 4, target = 0`: the equation `-x² + 4 = 0`
has the roots `2` and `-2`; the solver returns `-2`, which is not positive and is not the
larger root: the other root `(-b − √16) / (2a) = 2` is a root and is not `≤ -2`. -/
theorem predictConcurrencyQuad_neg_a_smaller_root :
    predictConcurrencyQuad Real.sqrt (-1 : ℝ) 0 4 0 = .ok (.num (-2)) ∧
      (-0 - Real.sqrt (0 * 0 - 4 * (-1) * (4 - ((0 : Int) : ℝ)))) / (2 * (-1)) = (2 : ℝ) ∧
      (-1 : ℝ) * 2 ^ 2 + 0 * 2 + (4 - ((0 : Int) : ℝ)) = 0 ∧
      ¬ (0 : ℝ) < -2 ∧
      ¬ (-0 - Real.sqrt (0 * 0 - 4 * (-1) * (4 - ((0 : Int) : ℝ)))) / (2 * (-1)) ≤ (-2 : ℝ) := by
  have hs : Real.sqrt (0 * 0 - 4 * (-1) * (4 - ((0 : Int) : ℝ))) = 4 :=
    (Real.sqrt_eq_iff_mul_self_eq (by norm_num) (by norm_num)).mpr (by norm_num)
  refine ⟨?_, ?_, by norm_num, by norm_num, ?_⟩
  · rw [predictConcurrencyQuad_real_eq (-1) 0 4 0 4 (by norm_num) (by norm_num) (by norm_num)]
    norm_num
  · rw [hs]; norm_num
  · rw [hs]; norm_num

/-- The order of the two roots: whenever `predictConcurrencyQuad` succeeds with `a ≠ 0`,
the value it returns is `(-b + √D) / (2a)`; this and `(-b − √D) / (2a)` are the two roots
of `a x² + b x + (c − target) = 0`, and the returned one is the larger of the two when
`a > 0` and the smaller of the two when `a < 0`. -/
theorem predictConcurrencyQuad_root_order (a b c : ℝ) (t : Int) (r : Float64 ℝ) (ha : a ≠ 0)
    (h : predictConcurrencyQuad Real.sqrt a b c t = .ok r) :
    r = .num ((-b + Real.sqrt (b * b - 4 * a * (c - (t : ℝ)))) / (2 * a)) ∧
      a * ((-b + Real.sqrt (b * b - 4 * a * (c - (t : ℝ)))) / (2 * a)) ^ 2 +
        b * ((-b + Real.sqrt (b * b - 4 * a * (c - (t : ℝ)))) / (2 * a)) + (c - (t : ℝ)) = 0 ∧
      a * ((-b - Real.sqrt (b * b - 4 * a * (c - (t : ℝ)))) / (2 * a)) ^ 2 +
        b * ((-b - Real.sqrt (b * b - 4 * a * (c - (t : ℝ)))) / (2 * a)) + (c - (t : ℝ)) = 0 ∧
      (0 < a → (-b - Real.sqrt (b * b - 4 * a * (c - (t : ℝ)))) / (2 * a) ≤
        (-b + Real.sqrt (b * b - 4 * a * (c - (t : ℝ)))) / (2 * a)) ∧
      (a < 0 → (-b + Real.sqrt (b * b - 4 * a * (c - (t : ℝ)))) / (2 * a) ≤
        (-b - Real.sqrt (b * b - 4 * a * (c - (t : ℝ)))) / (2 * a)) := by
  have hd : 0 ≤ b * b - 4 * a * (c - (t : ℝ)) := by
    by_contra hneg
    have hlt : b * b - 4 * a * (c - (t : ℝ)) < 0 := not_le.mp hneg
    simp [predictConcurrencyQuad, hlt] at h
  have hs := Real.sqrt_nonneg (b * b - 4 * a * (c - (t : ℝ)))
  obtain ⟨hp, hm⟩ := quadratic_formula_root a b c (t : ℝ) _ ha (Real.mul_self_sqrt hd)
  rw [predictConcurrencyQuad_eq Real.sqrt a b c t ha hd] at h
  refine ⟨?_, by linarith, by linarith, ?_, ?_⟩
  · injection h with h
    exact h.symm
  · intro hpos
    exact (div_le_div_iff_of_pos_right (by linarith)).mpr (by linarith)
  · intro hneg
    exact div_le_div_of_nonpos_of_le (by linarith) (by linarith)

/-- An instance of the order of the roots: `a = 1, b = 0, c = 0, target = 4`, where the
solver returns `2 = (-0 + √16) / 2`. -/
theorem predictConcurrencyQuad_root_order_example :
    (1 : ℝ) ≠ 0 ∧ predictConcurrencyQuad Real.sqrt (1 : ℝ) 0 0 4 = .ok (.num 2) ∧
      Float64.num (2 : ℝ) =
        .num ((-0 + Real.sqrt (0 * 0 - 4 * 1 * (0 - ((4 : Int) : ℝ)))) / (2 * 1)) := by
  have h : predictConcurrencyQuad Real.sqrt (1 : ℝ) 0 0 4 = .ok (.num 2) := by
    rw [predictConcurrencyQuad_real_eq 1 0 0 4 4 (by norm_num) (by norm_num) (by norm_num)]
    norm_num
  exact ⟨one_ne_zero, h, (predictConcurrencyQuad_root_order 1 0 0 4 (.num 2) one_ne_zero h).1⟩

/-- Counterexample to C10 as stated: with `a = 0, b = -2, c = 5, target = 3` the solver
does not fail; the discriminant is `4`, it divides `4` by zero and returns `+Inf`. -/
theorem predictConcurrencyQuad_zero_a_no_error :
    predictConcurrencyQuad Real.sqrt (0 : ℝ) (-2) 5 3 = .ok .posInf ∧
      ∀ e, predictConcurrencyQuad Real.sqrt (0 : ℝ) (-2) 5 3 ≠ .error e := by
  have h : predictConcurrencyQuad Real.sqrt (0 : ℝ) (-2) 5 3 = .ok .posInf := by
    rw [predictConcurrencyQuad_real_zero]; simp
  refine ⟨h, fun e he => ?_⟩
  rw [h] at he
  cases he

/-- Claim C10, amended.  When the quadratic coefficient `a` is zero,
`predictConcurrencyQuad` does not fail, whatever `b`, `c`, the target and the square
root: the discriminant is `b² ≥ 0` and the function returns a quotient by zero, which is
not an ordinary number. -/
theorem predictConcurrencyQuad_zero_a_returns_non_number (sqrt : K → K) (b c : K)
    (t : Int) :
    (∀ e, predictConcurrencyQuad sqrt 0 b c t ≠ .error e) ∧
      ∀ x : K, predictConcurrencyQuad sqrt 0 b c t ≠ .ok (.num x) := by
  have hd : ¬ b * b - 4 * 0 * (c - (t : K)) < 0 := by
    have := mul_self_nonneg b
    simp only [mul_zero, zero_mul, sub_zero, not_lt]
    exact this
  have h : predictConcurrencyQuad sqrt 0 b c t =
      .ok (Float64.div (.num (-b + sqrt (b * b - 4 * 0 * (c - (t : K))))) (.num (2 * 0))) := by
    simp only [predictConcurrencyQuad, hd, if_false]
  refine ⟨fun e he => ?_, fun x hx => ?_⟩
  · rw [h] at he
    cases he
  · rw [h] at hx
    simp only [mul_zero, Float64.div, if_true] at hx
    split_ifs at hx
    · simp at hx
    · simp only [Float64.infOfSign, Except.ok.injEq] at hx
      split_ifs at hx

end Solver

/-! ## The throughput interpolator -/

section Interpolator

/-- The test `float64(res.Connections) >= predictedConnections` on an ordinary number. -/
theorem Float64.ge_num (c x : K) : Float64.ge (.num c) (.num x) = decide (x ≤ c) := rfl

/-- The scan with a lower neighbour already set: if some sample from here on has a
concurrency `>= x`, the scan stops at the first such sample `hi`, and the lower neighbour
`lo` is the sample just before it, with `lo.Connections < x <= hi.Connections`. -/
theorem findAdjacent_some (x : K) :
    ∀ (l : List (TestResult K)) (low : TestResult K),
      (low.Connections : K) < x → (∃ r ∈ l, x ≤ (r.Connections : K)) →
      ∃ pre lo hi post, low :: l = pre ++ lo :: hi :: post ∧
        (lo.Connections : K) < x ∧ x ≤ (hi.Connections : K) ∧
        findAdjacent (.num x) l (some low) = (some lo, some hi) := by
  intro l
  induction l with
  | nil =>
    intro low _ h
    obtain ⟨r, hr, _⟩ := h
    cases hr
  | cons r rest ih =>
    intro low hlow h
    by_cases hr : x ≤ (r.Connections : K)
    · exact ⟨[], low, r, rest, rfl, hlow, hr, by simp [findAdjacent, Float64.ge_num, hr]⟩
    · have hex : ∃ r' ∈ rest, x ≤ (r'.Connections : K) := by
        obtain ⟨r', hr', hx⟩ := h
        rcases List.mem_cons.mp hr' with rfl | hmem
        · exact absurd hx hr
        · exact ⟨r', hmem, hx⟩
      obtain ⟨pre, lo, hi, post, hsplit, hlo, hhi, hfind⟩ := ih r (not_le.mp hr) hex
      refine ⟨low :: pre, lo, hi, post, by rw [hsplit]; rfl, hlo, hhi, ?_⟩
      simp [findAdjacent, Float64.ge_num, hr, hfind]

/-- The interpolation formula on ordinary numbers with distinct abscissas. -/
theorem interpolation_formula_num (x x1 y1 x2 y2 : K) (h : x2 - x1 ≠ 0) :
    Float64.add (.num y1)
        (Float64.div (Float64.mul (Float64.sub (.num y2) (.num y1))
          (Float64.sub (.num x) (.num x1))) (Float64.sub (.num x2) (.num x1))) =
      .num (y1 + (y2 - y1) * (x - x1) / (x2 - x1)) := by
  have h' : x2 + -x1 ≠ 0 := by rwa [← sub_eq_add_neg]
  simp [Float64.add, Float64.sub, Float64.neg, Float64.mul, Float64.div, h', sub_eq_add_neg]

/-- Inside the half-open envelope: for any samples (sorted or not) whose first
concurrency is strictly below `x` while some sample has a concurrency `>= x`,
`interpolateThroughput` succeeds and returns `y1 + (y2 − y1)(x − x1)/(x2 − x1)` for two
consecutive samples `lo`, `hi` with `lo.Connections < x <= hi.Connections`. -/
theorem interpolateThroughput_between (first : TestResult K) (rest : List (TestResult K))
    (x : K) (hfirst : (first.Connections : K) < x)
    (hlast : ∃ r ∈ rest, x ≤ (r.Connections : K)) :
    ∃ pre lo hi post, first :: rest = pre ++ lo :: hi :: post ∧
      (lo.Connections : K) < x ∧ x ≤ (hi.Connections : K) ∧
      interpolateThroughput (first :: rest) (.num x) =
        .ok (.num (lo.Throughput + (hi.Throughput - lo.Throughput) *
          (x - (lo.Connections : K)) / ((hi.Connections : K) - (lo.Connections : K)))) := by
  obtain ⟨pre, lo, hi, post, hsplit, hlo, hhi, hfind⟩ :=
    findAdjacent_some x rest first hfirst hlast
  refine ⟨pre, lo, hi, post, hsplit, hlo, hhi, ?_⟩
  have hlen : ¬ (first :: rest).length < 2 := by
    obtain ⟨r, hr, _⟩ := hlast
    have := List.length_pos_of_mem hr
    simp only [List.length_cons]
    omega
  have hfirst' : ¬ x ≤ (first.Connections : K) := not_le.mpr hfirst
  have hne : (hi.Connections : K) - (lo.Connections : K) ≠ 0 := by
    have : (lo.Connections : K) < (hi.Connections : K) := lt_of_lt_of_le hlo hhi
    exact sub_ne_zero.mpr (ne_of_gt this)
  rw [interpolateThroughput, if_neg hlen]
  simp only [findAdjacent, Float64.ge_num, hfirst', decide_False, hfind]
  simp [interpolation_formula_num _ _ _ _ _ hne]

/-- The scan on a strictly ascending sequence, aimed at the concurrency of one of its
samples `s` other than the first: it stops at `s`, with a lower neighbour strictly below. -/
theorem findAdjacent_at_sample (s : TestResult K) :
    ∀ (l : List (TestResult K)) (low : TestResult K),
      List.Pairwise (fun r1 r2 : TestResult K => r1.Connections < r2.Connections) (low :: l) →
      s ∈ l →
      ∃ lo : TestResult K, lo.Connections < s.Connections ∧
        findAdjacent (.num (s.Connections : K)) l (some low) = (some lo, some s) := by
  intro l
  induction l with
  | nil =>
    intro low _ h
    cases h
  | cons r rest ih =>
    intro low hp hs
    have hlow : low.Connections < s.Connections := (List.pairwise_cons.mp hp).1 s hs
    have hp' := (List.pairwise_cons.mp hp).2
    by_cases hr : ((s.Connections : Int) : K) ≤ (r.Connections : K)
    · have hrs : s = r := by
        rcases List.mem_cons.mp hs with h | h
        · exact h
        · have hlt := (List.pairwise_cons.mp hp').1 s h
          have : s.Connections ≤ r.Connections := Int.cast_le.mp hr
          omega
      subst hrs
      exact ⟨low, hlow, by simp [findAdjacent, Float64.ge_num]⟩
    · have hmem : s ∈ rest := by
        rcases List.mem_cons.mp hs with h | h
        · subst h
          exact absurd le_rfl hr
        · exact h
      obtain ⟨lo, hlo, hfind⟩ := ih r hp' hmem
      exact ⟨lo, hlo, by simp [findAdjacent, Float64.ge_num, hr, hfind]⟩

/-- Exactness at the sample boundaries other than the first: on a strictly ascending
sequence, interpolating at the concurrency of a sample that is not the first one returns
that sample's throughput. -/
theorem interpolateThroughput_at_later_sample (first : TestResult K)
    (rest : List (TestResult K)) (s : TestResult K)
    (hasc : List.Pairwise (fun r1 r2 : TestResult K => r1.Connections < r2.Connections)
      (first :: rest))
    (hs : s ∈ rest) :
    interpolateThroughput (first :: rest) (.num (s.Connections : K)) =
      .ok (.num s.Throughput) := by
  obtain ⟨lo, hlo, hfind⟩ := findAdjacent_at_sample s rest first hasc hs
  have hlen : ¬ (first :: rest).length < 2 := by
    have := List.length_pos_of_mem hs
    simp only [List.length_cons]
    omega
  have hfirst : first.Connections < s.Connections := (List.pairwise_cons.mp hasc).1 s hs
  have hfirst' : ¬ ((s.Connections : Int) : K) ≤ (first.Connections : K) := by
    rw [Int.cast_le]; omega
  have hne : (s.Connections : K) - (lo.Connections : K) ≠ 0 := by
    have : (lo.Connections : K) < (s.Connections : K) := Int.cast_lt.mpr hlo
    exact sub_ne_zero.mpr (ne_of_gt this)
  rw [interpolateThroughput, if_neg hlen]
  simp only [findAdjacent, Float64.ge_num, hfirst', decide_False, hfind]
  simp only [interpolation_formula_num _ _ _ _ _ hne, Bool.false_eq_true, if_false]
  rw [mul_div_assoc, div_self hne, mul_one, add_sub_cancel]

/-- At the first sample's concurrency the scan stops at once with no lower neighbour:
with two or more samples `interpolateThroughput` reports out of bounds. -/
theorem interpolateThroughput_at_first (first : TestResult K) (rest : List (TestResult K))
    (hrest : rest ≠ []) :
    interpolateThroughput (first :: rest) (.num (first.Connections : K)) =
      .error .outOfBounds := by
  have hlen : ¬ (first :: rest).length < 2 := by
    have := List.length_pos.mpr hrest
    simp only [List.length_cons]
    omega
  rw [interpolateThroughput, if_neg hlen]
  simp [findAdjacent, Float64.ge_num]

/-- Claim C5, evaluated at the first sample of the strictly ascending sequence
`[(c=1, rps=100), (c=10, rps=900)]`: interpolating at concurrency `1` does not return the
throughput `100` of that sample, it fails with the out-of-bounds error; at the other
sample, concurrency `10`, it returns that sample's throughput `900`. -/
theorem interpolateThroughput_first_sample_out_of_bounds :
    interpolateThroughput twoSamples (.num ((1 : Int) : ℚ)) = .error .outOfBounds ∧
      interpolateThroughput twoSamples (.num ((10 : Int) : ℚ)) = .ok (.num 900) := by
  constructor
  · exact interpolateThroughput_at_first (sample 1 10 100) [sample 10 20 900] (by simp)
  · exact interpolateThroughput_at_later_sample (sample 1 10 100) [sample 10 20 900]
      (sample 10 20 900) (by simp [sample]) (by simp)

/-- Claim C6, evaluated at `x = 2` on the strictly ascending sequence
`[(c=2, rps=200), (c=4, rps=380), (c=8, rps=700)]`: `x` equals the first concurrency, so
`first <= x <= last` holds and the pair `(2, 200)`, `(4, 380)` brackets it, with
interpolated value `200`; the code fails with the out-of-bounds error instead. -/
theorem interpolateThroughput_lower_bound_out_of_bounds :
    interpolateThroughput rampSamples (.num (2 : ℚ)) = .error .outOfBounds ∧
      (2 : ℚ) ≤ 2 ∧ (2 : ℚ) ≤ 8 ∧
      (200 : ℚ) + (380 - 200) * (2 - 2) / (4 - 2) = 200 := by
  refine ⟨?_, by norm_num, by norm_num, by norm_num⟩
  have h := interpolateThroughput_at_first (sample 2 5 200)
    [sample 4 9 380, sample 8 20 (700 : ℚ)] (by simp)
  simpa [rampSamples, sample] using h

end Interpolator

/-! ## The orchestrator on the end-to-end example -/

section EndToEnd

open Matrix

/-- The normal equations in terms of the residuals: when `XᵀX` is nonsingular and the
residuals `c + b x + a x² − y` of a quadratic are orthogonal to `1`, `x` and `x²` over
the samples, `quadraticRegression` returns its coefficients. -/
theorem quadraticRegression_eq_of_residuals (results : List (TestResult K))
    (p : LatencyPercentile) (a b c : K) (hlen : 3 ≤ results.length)
    (hdet : ((designMatrix (concurrencyOf results))ᵀ *
      designMatrix (concurrencyOf results)).det ≠ 0)
    (hcond : conditionNumber ((designMatrix (concurrencyOf results))ᵀ *
      designMatrix (concurrencyOf results)) ≤ ConditionTolerance)
    (h0 : (results.map fun r : TestResult K =>
      c + (r.Connections : K) * b + (r.Connections : K) * (r.Connections : K) * a
        - r.Latency p).sum = 0)
    (h1 : (results.map fun r : TestResult K => (r.Connections : K) *
      (c + (r.Connections : K) * b + (r.Connections : K) * (r.Connections : K) * a
        - r.Latency p)).sum = 0)
    (h2 : (results.map fun r : TestResult K => (r.Connections : K) * (r.Connections : K) *
      (c + (r.Connections : K) * b + (r.Connections : K) * (r.Connections : K) * a
        - r.Latency p)).sum = 0) :
    quadraticRegression results p = .ok (a, b, c) := by
  have horth : (designMatrix (concurrencyOf results))ᵀ *ᵥ
      (designMatrix (concurrencyOf results) *ᵥ ![c, b, a] - latencyOf results p) = 0 := by
    rw [sum_map_eq_sum_get] at h0 h1 h2
    funext m
    fin_cases m
    · refine Eq.trans ?_ h0
      simp only [Matrix.mulVec, Matrix.dotProduct, Matrix.transpose_apply, Pi.sub_apply,
        designMatrix_mulVec]
      refine Finset.sum_congr rfl fun i _ => ?_
      simp [designMatrix, concurrencyOf, latencyOf, Fin.sum_univ_three]
    · refine Eq.trans ?_ h1
      simp only [Matrix.mulVec, Matrix.dotProduct, Matrix.transpose_apply, Pi.sub_apply,
        designMatrix_mulVec]
      refine Finset.sum_congr rfl fun i _ => ?_
      simp [designMatrix, concurrencyOf, latencyOf, Fin.sum_univ_three]
    · refine Eq.trans ?_ h2
      simp only [Matrix.mulVec, Matrix.dotProduct, Matrix.transpose_apply, Pi.sub_apply,
        designMatrix_mulVec]
      refine Finset.sum_congr rfl fun i _ => ?_
      simp [designMatrix, concurrencyOf, latencyOf, Fin.sum_univ_three]
  have h := quadraticRegression_eq_of_normal results p ![c, b, a] hlen hdet hcond
    (by
      rw [Matrix.mulVec_sub, sub_eq_zero] at horth
      rw [← Matrix.mulVec_mulVec, horth])
  simpa using h

/-- The fit of the end-to-end example, in exact arithmetic. -/
theorem endToEnd_fit :
    quadraticRegression (endToEndSamples : List (TestResult K)) Latency90 =
      .ok (178051 / 18142983, 5592053 / 6047661, 169935620 / 18142983) := by
  have hwell := wellConditioned_of_powerSums (endToEndSamples : List (TestResult K))
    4 161 12601 1126001 106260001 106260001 97972108200
    (by norm_num [powerSum, endToEndSamples, sample])
    (by norm_num [powerSum, endToEndSamples, sample])
    (by norm_num [powerSum, endToEndSamples, sample])
    (by norm_num [powerSum, endToEndSamples, sample])
    (by norm_num [powerSum, endToEndSamples, sample])
    (by norm_num [abs_of_pos]) (by norm_num) (by norm_num [abs_of_pos])
    (by norm_num [ConditionTolerance])
  apply quadraticRegression_eq_of_residuals _ _ _ _ _ (by simp [endToEndSamples]) hwell.1
    hwell.2
  · simp only [endToEndSamples, List.map_cons, List.map_nil, List.sum_cons, List.sum_nil,
      sample_Latency90]
    norm_num [sample]
  · simp only [endToEndSamples, List.map_cons, List.map_nil, List.sum_cons, List.sum_nil,
      sample_Latency90]
    norm_num [sample]
  · simp only [endToEndSamples, List.map_cons, List.map_nil, List.sum_cons, List.sum_nil,
      sample_Latency90]
    norm_num [sample]
/-- The interpolation of the end-to-end example for a predicted concurrency in `(50, 100]`:
the adjacent samples are `(50, 4000)` and `(100, 6000)`. -/
theorem endToEnd_interpolate (x : K) (h50 : 50 < x) (h100 : x ≤ 100) :
    interpolateThroughput (endToEndSamples : List (TestResult K)) (.num x) =
      .ok (.num (4000 + (6000 - 4000) * (x - 50) / (100 - 50))) := by
  have h1 : ¬ x ≤ 1 := by linarith
  have h10 : ¬ x ≤ 10 := by linarith
  have h50' : ¬ x ≤ 50 := by linarith
  have hne : ((100 : K) - 50) ≠ 0 := by norm_num
  have hform := interpolation_formula_num x 50 4000 100 6000 hne
  simp only [interpolateThroughput, endToEndSamples, findAdjacent, sample, Float64.ge_num]
  simp [h1, h10, h50', h100]
  simpa using hform

/-- The solver and the validator on the fitted coefficients of the end-to-end example:
the solver returns a number strictly between 50 and 100 and the validator accepts. -/
theorem endToEnd_root :
    ∃ x : ℝ, 50 < x ∧ x < 100 ∧
      predictConcurrencyQuad Real.sqrt (178051 / 18142983) (5592053 / 6047661)
        (169935620 / 18142983) 100 = .ok (.num x) ∧
      validatePrediction Real.sqrt (178051 / 18142983) (5592053 / 6047661)
        (169935620 / 18142983) 100 Latency90 (endToEndSamples : List (TestResult ℝ)) = none := by
  have hd : (0 : ℝ) ≤ 5592053 / 6047661 * (5592053 / 6047661) -
      4 * (178051 / 18142983) * (169935620 / 18142983 - ((100 : Int) : ℝ)) := by norm_num
  have hlo : (100 * (178051 / 18142983) + 5592053 / 6047661 : ℝ) <
      Real.sqrt (5592053 / 6047661 * (5592053 / 6047661) -
        4 * (178051 / 18142983) * (169935620 / 18142983 - ((100 : Int) : ℝ))) :=
    (Real.lt_sqrt (by norm_num)).mpr (by norm_num)
  have hhi : Real.sqrt (5592053 / 6047661 * (5592053 / 6047661) -
        4 * (178051 / 18142983) * (169935620 / 18142983 - ((100 : Int) : ℝ))) <
      (200 * (178051 / 18142983) + 5592053 / 6047661 : ℝ) :=
    (Real.sqrt_lt' (by norm_num)).mpr (by norm_num)
  have hpred := predictConcurrencyQuad_eq Real.sqrt (178051 / 18142983 : ℝ)
    (5592053 / 6047661) (169935620 / 18142983) 100 (by norm_num) hd
  have hx50 : (50 : ℝ) < (-(5592053 / 6047661) + Real.sqrt (5592053 / 6047661 *
      (5592053 / 6047661) - 4 * (178051 / 18142983) * (169935620 / 18142983 -
        ((100 : Int) : ℝ)))) / (2 * (178051 / 18142983)) := by
    rw [lt_div_iff₀ (by norm_num)]
    linarith
  have hx100 : (-(5592053 / 6047661) + Real.sqrt (5592053 / 6047661 *
      (5592053 / 6047661) - 4 * (178051 / 18142983) * (169935620 / 18142983 -
        ((100 : Int) : ℝ)))) / (2 * (178051 / 18142983)) < (100 : ℝ) := by
    rw [div_lt_iff₀ (by norm_num)]
    linarith
  refine ⟨_, hx50, hx100, hpred, ?_⟩
  have h2a : (2 * (178051 / 18142983) : ℝ) ≠ 0 := by norm_num
  have hlat : allLatenciesAboveTarget 100 Latency90 (endToEndSamples : List (TestResult ℝ))
      = false := by
    norm_num [endToEndSamples, allLatenciesAboveTarget, sample_Latency90]
  simp only [validatePrediction, not_lt.mpr hd, if_false, Float64.div_num_of_ne_zero _ _ h2a,
    hlat]
  simp only [endToEndSamples, List.head?, List.getLast?, List.getLast, sample, Float64.lt,
    Float64.gt]
  simp only [Int.cast_ofNat] at hx50 hx100
  simp only [Int.cast_ofNat, Int.cast_one, Bool.and_eq_true, Bool.or_eq_true, decide_eq_true_eq,
    Bool.false_eq_true, if_false, ite_eq_right_iff, imp_false, not_and]
  intro h
  rcases h with h | h <;> linarith

/-- Claim C3.  For the samples `[(c=1, lat=10, rps=100), (c=10, lat=20, rps=900),
(c=50, lat=80, rps=4000), (c=100, lat=200, rps=6000)]`, the 90th-percentile selector and
target latency 100, `analyzeAndPredict` succeeds in exact real arithmetic, the predicted
concurrency is strictly between 50 and 100, and the throughput interpolated at that
concurrency is strictly between 4000 and 6000. -/
theorem analyzeAndPredict_end_to_end :
    ∃ x : ℝ, analyzeAndPredict Real.sqrt 100 Latency90 endToEndSamples = .ok (.num x) ∧
      50 < x ∧ x < 100 ∧
      ∃ rps : ℝ, interpolateThroughput endToEndSamples (.num x) = .ok (.num rps) ∧
        4000 < rps ∧ rps < 6000 := by
  obtain ⟨x, h50, h100, hpred, hval⟩ := endToEnd_root
  have hint := endToEnd_interpolate x h50 (le_of_lt h100)
  refine ⟨x, ?_, h50, h100, _, hint, ?_, ?_⟩
  · simp only [analyzeAndPredict, endToEnd_fit, hpred, hval, hint]
  · have : 0 < (6000 - 4000) * (x - 50) / (100 - 50) := by
      apply div_pos
      · apply mul_pos (by norm_num); linarith
      · norm_num
    linarith
  · have : (6000 - 4000) * (x - 50) / (100 - 50) < 2000 := by
      rw [div_lt_iff₀ (by norm_num)]
      linarith
    linarith

end EndToEnd

/-! ## Error conditions of the fit and of the interpolator -/

section FitErrors

open Matrix

/-- When the abscissas take at most two values `u`, `v`, the polynomial `(x − u)(x − v)`
vanishes on every row, so `XᵀX` is singular. -/
theorem det_normal_eq_zero_of_two_values {n : Nat} (x : Fin n → K) (u v : K)
    (h : ∀ i, x i = u ∨ x i = v) :
    ((designMatrix x)ᵀ * designMatrix x).det = 0 := by
  apply Matrix.exists_mulVec_eq_zero_iff.mp
  refine ⟨![u * v, -(u + v), 1], ?_, ?_⟩
  · intro h0
    have := congrFun h0 2
    simp at this
  · have hX : designMatrix x *ᵥ ![u * v, -(u + v), 1] = 0 := by
      funext i
      rw [designMatrix_mulVec]
      simp only [Matrix.cons_val_zero, Matrix.cons_val_one, Matrix.head_cons,
        Matrix.cons_val_two, Matrix.tail_cons, Pi.zero_apply]
      rcases h i with e | e <;> rw [e] <;> ring
    rw [← Matrix.mulVec_mulVec, hX, Matrix.mulVec_zero]

/-- Claim C11.  `quadraticRegression` fails with the insufficient-data error for every
input of 0, 1 or 2 samples, and never returns that error for 3 or more samples: it
returns it exactly when there are fewer than 3 samples. -/
theorem quadraticRegression_insufficientData_iff (results : List (TestResult K))
    (p : LatencyPercentile) :
    quadraticRegression results p = .error .insufficientData ↔ results.length < 3 := by
  by_cases h : results.length < 3
  · simp [quadraticRegression, h]
  · cases hinv : inverse ((designMatrix (concurrencyOf results))ᵀ *
        designMatrix (concurrencyOf results)) with
    | none => simp [quadraticRegression, h, hinv]
    | some Minv => simp [quadraticRegression, h, hinv]

/-- Claim C12.  For three or more samples, `quadraticRegression` fails with the
matrix-inversion error when `XᵀX` is singular; `XᵀX` is singular, and the fit fails so,
whenever the samples have fewer than three distinct concurrency values (all of them are
one of two values `u`, `v`), in particular when all share one value. -/
theorem quadraticRegression_singular (results : List (TestResult K))
    (p : LatencyPercentile) (hlen : 3 ≤ results.length) :
    (((designMatrix (concurrencyOf results))ᵀ *
          designMatrix (concurrencyOf results)).det = 0 →
        quadraticRegression results p = .error .invertMatrix) ∧
      ((∃ u v : Int, ∀ r ∈ results, r.Connections = u ∨ r.Connections = v) →
        ((designMatrix (concurrencyOf results))ᵀ *
          designMatrix (concurrencyOf results)).det = 0 ∧
        quadraticRegression results p = .error .invertMatrix) ∧
      ((∃ u : Int, ∀ r ∈ results, r.Connections = u) →
        quadraticRegression results p = .error .invertMatrix) := by
  have key : (∃ u v : Int, ∀ r ∈ results, r.Connections = u ∨ r.Connections = v) →
      ((designMatrix (concurrencyOf results))ᵀ *
        designMatrix (concurrencyOf results)).det = 0 := by
    rintro ⟨u, v, huv⟩
    apply det_normal_eq_zero_of_two_values (concurrencyOf results) (u : K) (v : K)
    intro i
    rcases huv _ (List.get_mem results i.1 i.2) with e | e
    · exact Or.inl (congrArg (Int.cast : Int → K) e)
    · exact Or.inr (congrArg (Int.cast : Int → K) e)
  have fails : ((designMatrix (concurrencyOf results))ᵀ *
        designMatrix (concurrencyOf results)).det = 0 →
      quadraticRegression results p = .error .invertMatrix := fun h =>
    (quadraticRegression_invertMatrix_iff results p hlen).mpr (Or.inl h)
  refine ⟨fails, fun h => ⟨key h, fails (key h)⟩, fun h => ?_⟩
  obtain ⟨u, hu⟩ := h
  exact fails (key ⟨u, u, fun r hr => Or.inl (hu r hr)⟩)

/-- Witness for C12: three samples that all have concurrency 5. -/
theorem quadraticRegression_singular_witness :
    quadraticRegression constantSamples Latency90 = .error .invertMatrix :=
  (quadraticRegression_singular constantSamples Latency90 (by decide)).2.2
    ⟨5, by
      intro r hr
      simp only [constantSamples, List.mem_cons, List.mem_singleton, List.not_mem_nil,
        or_false] at hr
      rcases hr with rfl | rfl | rfl <;> rfl⟩

end FitErrors

section InterpolatorErrors

/-- Claim C18.  `interpolateThroughput` fails with the not-enough-results error for every
input of 0 or 1 samples, whatever the predicted concurrency (a number, an infinity or
NaN), and never returns that error for 2 or more samples. -/
theorem interpolateThroughput_notEnoughResults_iff (results : List (TestResult K))
    (predictedConnections : Float64 K) :
    interpolateThroughput results predictedConnections = .error .notEnoughResults ↔
      results.length < 2 := by
  by_cases h : results.length < 2
  · simp [interpolateThroughput, h]
  · simp only [interpolateThroughput, h, if_false, iff_false]
    split <;> simp

end InterpolatorErrors

/-! ## The prediction validator -/

section Validator

/-- In a sequence in ascending order of concurrency the first sample has the least and
the last sample the greatest concurrency. -/
theorem connections_between_first_and_last {F : Type} (results : List (TestResult F))
    (first last : TestResult F)
    (hasc : List.Pairwise (fun r1 r2 : TestResult F => r1.Connections ≤ r2.Connections) results)
    (hfirst : results.head? = some first) (hlast : results.getLast? = some last) :
    ∀ r ∈ results, first.Connections ≤ r.Connections ∧ r.Connections ≤ last.Connections := by
  intro r hr
  constructor
  · obtain ⟨ys, hys⟩ := List.head?_eq_some_iff.mp hfirst
    rw [hys] at hr hasc
    rcases List.mem_cons.mp hr with h | h
    · rw [h]
    · exact (List.pairwise_cons.mp hasc).1 r h
  · obtain ⟨zs, hzs⟩ := List.getLast?_eq_some_iff.mp hlast
    rw [hzs] at hr hasc
    rcases List.mem_append.mp hr with h | h
    · exact (List.pairwise_append.mp hasc).2.2 r h last (by simp)
    · rw [List.mem_singleton.mp h]

/-- The loop over the latencies answers true when every latency is above the target. -/
theorem allLatenciesAboveTarget_of_forall (t : Int) (p : LatencyPercentile) :
    ∀ results : List (TestResult K), (∀ r ∈ results, (t : K) < r.Latency p) →
      allLatenciesAboveTarget t p results = true := by
  intro results
  induction results with
  | nil => intro _; rfl
  | cons r rest ih =>
    intro h
    have hr : ¬ r.Latency p ≤ (t : K) := not_le.mpr (h r (List.mem_cons_self r rest))
    simp only [allLatenciesAboveTarget, hr, if_false]
    exact ih fun s hs => h s (List.mem_cons_of_mem r hs)

/-- The validator on a non-empty sequence with a non-negative discriminant, with its two
roots and its range check spelled out. -/
theorem validatePrediction_eq (sqrt : K → K) (a b c : K) (t : Int) (p : LatencyPercentile)
    (results : List (TestResult K)) (first last : TestResult K)
    (hfirst : results.head? = some first) (hlast : results.getLast? = some last)
    (hd : 0 ≤ b * b - 4 * a * (c - (t : K))) :
    validatePrediction sqrt a b c t p results =
      if (Float64.lt (Float64.div (.num (-b + sqrt (b * b - 4 * a * (c - (t : K)))))
              (.num (2 * a))) (.num (first.Connections : K)) ||
            Float64.gt (Float64.div (.num (-b + sqrt (b * b - 4 * a * (c - (t : K)))))
              (.num (2 * a))) (.num (last.Connections : K))) &&
          (Float64.lt (Float64.div (.num (-b - sqrt (b * b - 4 * a * (c - (t : K)))))
              (.num (2 * a))) (.num (first.Connections : K)) ||
            Float64.gt (Float64.div (.num (-b - sqrt (b * b - 4 * a * (c - (t : K)))))
              (.num (2 * a))) (.num (last.Connections : K))) then
        some .rootsOutsideRange
      else if allLatenciesAboveTarget t p results then some (.allLatenciesAbove t)
      else none := by
  simp only [validatePrediction, not_lt.mpr hd, if_false, hfirst, hlast]

/-- Claim C13.  For a non-empty sample sequence in ascending order of concurrency and
coefficients with `a ≠ 0` and non-negative discriminant `D`, `validatePrediction` fails with
the roots-out-of-range error if and only if neither `(-b + √D)/(2a)` nor `(-b − √D)/(2a)`
lies in the closed interval from the first to the last sample's concurrency; under the
ordering every sample's concurrency lies in that interval, so it is
`[min observed, max observed]`. -/
theorem validatePrediction_rootsOutsideRange_iff (sqrt : K → K) (a b c : K) (t : Int)
    (p : LatencyPercentile) (results : List (TestResult K)) (first last : TestResult K)
    (hfirst : results.head? = some first) (hlast : results.getLast? = some last)
    (hasc : List.Pairwise (fun r1 r2 : TestResult K => r1.Connections ≤ r2.Connections) results)
    (ha : a ≠ 0) (hd : 0 ≤ b * b - 4 * a * (c - (t : K))) :
    (validatePrediction sqrt a b c t p results = some .rootsOutsideRange ↔
        ¬ ((first.Connections : K) ≤ (-b + sqrt (b * b - 4 * a * (c - (t : K)))) / (2 * a) ∧
            (-b + sqrt (b * b - 4 * a * (c - (t : K)))) / (2 * a) ≤ (last.Connections : K)) ∧
          ¬ ((first.Connections : K) ≤ (-b - sqrt (b * b - 4 * a * (c - (t : K)))) / (2 * a) ∧
            (-b - sqrt (b * b - 4 * a * (c - (t : K)))) / (2 * a) ≤ (last.Connections : K))) ∧
      ∀ r ∈ results, first.Connections ≤ r.Connections ∧ r.Connections ≤ last.Connections := by
  refine ⟨?_, connections_between_first_and_last results first last hasc hfirst hlast⟩
  have h2a : 2 * a ≠ 0 := mul_ne_zero two_ne_zero ha
  rw [validatePrediction_eq sqrt a b c t p results first last hfirst hlast hd,
    Float64.div_num_of_ne_zero _ _ h2a, Float64.div_num_of_ne_zero _ _ h2a]
  simp only [Float64.lt, Float64.gt]
  by_cases h1 : (first.Connections : K) ≤ (-b + sqrt (b * b - 4 * a * (c - (t : K)))) / (2 * a) ∧
      (-b + sqrt (b * b - 4 * a * (c - (t : K)))) / (2 * a) ≤ (last.Connections : K)
  · have e1 : ¬ (-b + sqrt (b * b - 4 * a * (c - (t : K)))) / (2 * a) < (first.Connections : K) :=
      not_lt.mpr h1.1
    have e2 : ¬ (last.Connections : K) < (-b + sqrt (b * b - 4 * a * (c - (t : K)))) / (2 * a) :=
      not_lt.mpr h1.2
    simp only [e1, e2, h1]
    cases allLatenciesAboveTarget t p results <;> simp
  · by_cases h2 : (first.Connections : K) ≤
        (-b - sqrt (b * b - 4 * a * (c - (t : K)))) / (2 * a) ∧
        (-b - sqrt (b * b - 4 * a * (c - (t : K)))) / (2 * a) ≤ (last.Connections : K)
    · have e1 : ¬ (-b - sqrt (b * b - 4 * a * (c - (t : K)))) / (2 * a) <
          (first.Connections : K) := not_lt.mpr h2.1
      have e2 : ¬ (last.Connections : K) <
          (-b - sqrt (b * b - 4 * a * (c - (t : K)))) / (2 * a) := not_lt.mpr h2.2
      simp only [e1, e2, h2]
      cases allLatenciesAboveTarget t p results <;> simp
    · have o1 : (-b + sqrt (b * b - 4 * a * (c - (t : K)))) / (2 * a) < (first.Connections : K) ∨
          (last.Connections : K) < (-b + sqrt (b * b - 4 * a * (c - (t : K)))) / (2 * a) := by
        by_contra hcon
        push_neg at hcon
        exact h1 hcon
      have o2 : (-b - sqrt (b * b - 4 * a * (c - (t : K)))) / (2 * a) < (first.Connections : K) ∨
          (last.Connections : K) < (-b - sqrt (b * b - 4 * a * (c - (t : K)))) / (2 * a) := by
        by_contra hcon
        push_neg at hcon
        exact h2 hcon
      have c1 : (decide ((-b + sqrt (b * b - 4 * a * (c - (t : K)))) / (2 * a) <
            (first.Connections : K)) ||
          decide ((last.Connections : K) <
            (-b + sqrt (b * b - 4 * a * (c - (t : K)))) / (2 * a))) = true := by
        simpa using o1
      have c2 : (decide ((-b - sqrt (b * b - 4 * a * (c - (t : K)))) / (2 * a) <
            (first.Connections : K)) ||
          decide ((last.Connections : K) <
            (-b - sqrt (b * b - 4 * a * (c - (t : K)))) / (2 * a))) = true := by
        simpa using o2
      simp [c1, c2, h1, h2]

/-- Witness for C13: the ascending samples with concurrency 1, 3, 10 and the coefficients
`(1, −8, 22)` with target 10, whose discriminant is 16. -/
theorem validatePrediction_rootsOutsideRange_iff_witness :
    (validatePrediction Real.sqrt (1 : ℝ) (-8) 22 10 Latency90 sortedSamples =
        some .rootsOutsideRange ↔
      ¬ ((((sample 1 15 100 : TestResult ℝ).Connections : Int) : ℝ) ≤
            (-(-8) + Real.sqrt (-8 * -8 - 4 * 1 * (22 - ((10 : Int) : ℝ)))) / (2 * 1) ∧
          (-(-8) + Real.sqrt (-8 * -8 - 4 * 1 * (22 - ((10 : Int) : ℝ)))) / (2 * 1) ≤
            (((sample 10 42 900 : TestResult ℝ).Connections : Int) : ℝ)) ∧
        ¬ ((((sample 1 15 100 : TestResult ℝ).Connections : Int) : ℝ) ≤
            (-(-8) - Real.sqrt (-8 * -8 - 4 * 1 * (22 - ((10 : Int) : ℝ)))) / (2 * 1) ∧
          (-(-8) - Real.sqrt (-8 * -8 - 4 * 1 * (22 - ((10 : Int) : ℝ)))) / (2 * 1) ≤
            (((sample 10 42 900 : TestResult ℝ).Connections : Int) : ℝ))) ∧
      ∀ r ∈ (sortedSamples : List (TestResult ℝ)),
        (sample 1 15 100 : TestResult ℝ).Connections ≤ r.Connections ∧
          r.Connections ≤ (sample 10 42 900 : TestResult ℝ).Connections :=
  validatePrediction_rootsOutsideRange_iff Real.sqrt 1 (-8) 22 10 Latency90 sortedSamples
    (sample 1 15 100) (sample 10 42 900) rfl rfl (by simp [sortedSamples, sample])
    (by norm_num) (by norm_num)

/-- Counterexample to C14 as stated: every latency of the samples (50 and 60) is above
the target 10, but with `a = 1, b = 0, c = 100` the discriminant is negative and the
validator fails with the cannot-be-achieved error, not the all-latencies-above error. -/
theorem validatePrediction_above_target_other_error :
    (∀ r ∈ (slowSamples : List (TestResult ℝ)), ((10 : Int) : ℝ) < r.Latency Latency90) ∧
      validatePrediction Real.sqrt (1 : ℝ) 0 100 10 Latency90 slowSamples =
        some (.cannotBeAchieved 10) ∧
      validatePrediction Real.sqrt (1 : ℝ) 0 100 10 Latency90 slowSamples ≠
        some (.allLatenciesAbove 10) := by
  have h : validatePrediction Real.sqrt (1 : ℝ) 0 100 10 Latency90 slowSamples =
      some (.cannotBeAchieved 10) := by
    have hd : (0 : ℝ) * 0 - 4 * 1 * (100 - ((10 : Int) : ℝ)) < 0 := by norm_num
    rw [validatePrediction]
    exact if_pos hd
  refine ⟨?_, h, ?_⟩
  · intro r hr
    simp only [slowSamples, List.mem_cons, List.mem_singleton, List.not_mem_nil,
      or_false] at hr
    rcases hr with rfl | rfl <;> rw [sample_Latency90] <;> norm_num
  · rw [h]
    simp

/-- Claim C14, amended.  For a non-empty sample sequence in which every sample's latency at
the selected percentile is strictly above the target, `validatePrediction` fails for all
coefficients; the error is the all-latencies-above error exactly when the discriminant is
non-negative and the range check passes (not both roots are outside the interval from the
first to the last concurrency), which for `a ≠ 0` means that at least one of the two
roots lies in that interval. -/
theorem validatePrediction_all_latencies_above (sqrt : K → K) (a b c : K) (t : Int)
    (p : LatencyPercentile) (results : List (TestResult K)) (first last : TestResult K)
    (hfirst : results.head? = some first) (hlast : results.getLast? = some last)
    (habove : ∀ r ∈ results, (t : K) < r.Latency p) :
    (∃ e, validatePrediction sqrt a b c t p results = some e) ∧
      (validatePrediction sqrt a b c t p results = some (.allLatenciesAbove t) ↔
        0 ≤ b * b - 4 * a * (c - (t : K)) ∧
          ((Float64.lt (Float64.div (.num (-b + sqrt (b * b - 4 * a * (c - (t : K)))))
                (.num (2 * a))) (.num (first.Connections : K)) ||
              Float64.gt (Float64.div (.num (-b + sqrt (b * b - 4 * a * (c - (t : K)))))
                (.num (2 * a))) (.num (last.Connections : K))) &&
            (Float64.lt (Float64.div (.num (-b - sqrt (b * b - 4 * a * (c - (t : K)))))
                (.num (2 * a))) (.num (first.Connections : K)) ||
              Float64.gt (Float64.div (.num (-b - sqrt (b * b - 4 * a * (c - (t : K)))))
                (.num (2 * a))) (.num (last.Connections : K)))) = false) ∧
      (a ≠ 0 → 0 ≤ b * b - 4 * a * (c - (t : K)) →
        (((first.Connections : K) ≤ (-b + sqrt (b * b - 4 * a * (c - (t : K)))) / (2 * a) ∧
            (-b + sqrt (b * b - 4 * a * (c - (t : K)))) / (2 * a) ≤ (last.Connections : K)) ∨
          ((first.Connections : K) ≤ (-b - sqrt (b * b - 4 * a * (c - (t : K)))) / (2 * a) ∧
            (-b - sqrt (b * b - 4 * a * (c - (t : K)))) / (2 * a) ≤ (last.Connections : K))) →
        validatePrediction sqrt a b c t p results = some (.allLatenciesAbove t)) := by
  have hall := allLatenciesAboveTarget_of_forall t p results habove
  have hgen : validatePrediction sqrt a b c t p results = some (.allLatenciesAbove t) ↔
      0 ≤ b * b - 4 * a * (c - (t : K)) ∧
        ((Float64.lt (Float64.div (.num (-b + sqrt (b * b - 4 * a * (c - (t : K)))))
              (.num (2 * a))) (.num (first.Connections : K)) ||
            Float64.gt (Float64.div (.num (-b + sqrt (b * b - 4 * a * (c - (t : K)))))
              (.num (2 * a))) (.num (last.Connections : K))) &&
          (Float64.lt (Float64.div (.num (-b - sqrt (b * b - 4 * a * (c - (t : K)))))
              (.num (2 * a))) (.num (first.Connections : K)) ||
            Float64.gt (Float64.div (.num (-b - sqrt (b * b - 4 * a * (c - (t : K)))))
              (.num (2 * a))) (.num (last.Connections : K)))) = false := by
    by_cases hd : 0 ≤ b * b - 4 * a * (c - (t : K))
    · rw [validatePrediction_eq sqrt a b c t p results first last hfirst hlast hd, hall]
      simp only [if_true]
      split_ifs with hc
      · simp [hd, hc]
      · simp [hd, hc]
    · have hlt : b * b - 4 * a * (c - (t : K)) < 0 := not_le.mp hd
      have : validatePrediction sqrt a b c t p results = some (.cannotBeAchieved t) := by
        rw [validatePrediction]
        exact if_pos hlt
      rw [this]
      simp [hd]
  refine ⟨?_, hgen, ?_⟩
  · by_cases hd : 0 ≤ b * b - 4 * a * (c - (t : K))
    · rw [validatePrediction_eq sqrt a b c t p results first last hfirst hlast hd, hall]
      simp only [if_true]
      split_ifs
      · exact ⟨_, rfl⟩
      · exact ⟨_, rfl⟩
    · have hlt : b * b - 4 * a * (c - (t : K)) < 0 := not_le.mp hd
      refine ⟨.cannotBeAchieved t, ?_⟩
      rw [validatePrediction]
      exact if_pos hlt
  · intro ha hd hroot
    have h2a : 2 * a ≠ 0 := mul_ne_zero two_ne_zero ha
    rw [hgen]
    refine ⟨hd, ?_⟩
    rw [Float64.div_num_of_ne_zero _ _ h2a, Float64.div_num_of_ne_zero _ _ h2a]
    simp only [Float64.lt, Float64.gt]
    rcases hroot with h | h
    · simp [not_lt.mpr h.1, not_lt.mpr h.2]
    · simp [not_lt.mpr h.1, not_lt.mpr h.2]

/-- Witness for C14, amended: the samples with latencies 50 and 60, target 10. -/
theorem validatePrediction_all_latencies_above_witness :
    ∃ e, validatePrediction Real.sqrt (1 : ℝ) 0 100 10 Latency90 slowSamples = some e :=
  (validatePrediction_all_latencies_above Real.sqrt (1 : ℝ) 0 100 10 Latency90 slowSamples
    (sample 1 50 100) (sample 10 60 900) rfl rfl
    (by
      intro r hr
      simp only [slowSamples, List.mem_cons, List.mem_singleton, List.not_mem_nil,
        or_false] at hr
      rcases hr with rfl | rfl <;> rw [sample_Latency90] <;> norm_num)).1

end Validator

section InterpolatorBounds

/-- When no sample of the scanned part has a concurrency `>=` the predicted one, the scan
ends without an upper neighbour. -/
theorem findAdjacent_snd_none (predicted : Float64 K) :
    ∀ (l : List (TestResult K)) (low : Option (TestResult K)),
      (∀ r ∈ l, Float64.ge (.num (r.Connections : K)) predicted = false) →
      (findAdjacent predicted l low).2 = none := by
  intro l
  induction l with
  | nil => intro low _; rfl
  | cons r rest ih =>
    intro low h
    have hr := h r (List.mem_cons_self r rest)
    simp only [findAdjacent, hr, Bool.false_eq_true, if_false]
    exact ih (some r) fun s hs => h s (List.mem_cons_of_mem r hs)

/-- A value strictly below an ordinary number is also `<=` it. -/
theorem Float64.le_of_lt_num (predicted : Float64 K) (c : K)
    (h : Float64.lt predicted (.num c) = true) : Float64.le predicted (.num c) = true := by
  cases predicted with
  | num x =>
    simp only [Float64.lt, decide_eq_true_eq] at h
    simp [Float64.le, le_of_lt h]
  | posInf => simp [Float64.lt] at h
  | negInf => rfl
  | nan => simp [Float64.lt] at h

/-- A value strictly above the ordinary number `c` is not `<=` any number `d ≤ c`. -/
theorem Float64.not_le_of_gt_num (predicted : Float64 K) (c d : K) (hdc : d ≤ c)
    (h : Float64.gt predicted (.num c) = true) : Float64.le predicted (.num d) = false := by
  cases predicted with
  | num x =>
    simp only [Float64.gt, Float64.lt, decide_eq_true_eq] at h
    simp [Float64.le, lt_of_le_of_lt hdc h]
  | posInf => rfl
  | negInf => simp [Float64.gt, Float64.lt] at h
  | nan => simp [Float64.gt, Float64.lt] at h

/-- Claim C15.  For a sequence of two or more samples in ascending order of concurrency,
`interpolateThroughput` fails with the out-of-bounds error whenever the predicted
concurrency (an ordinary number or an infinity) is strictly below the first sample's
concurrency or strictly above the last sample's, in the comparisons `<` and `>` of
float64. -/
theorem interpolateThroughput_outside_envelope (results : List (TestResult K))
    (first last : TestResult K) (predicted : Float64 K) (hlen : 2 ≤ results.length)
    (hasc : List.Pairwise (fun r1 r2 : TestResult K => r1.Connections ≤ r2.Connections) results)
    (hfirst : results.head? = some first) (hlast : results.getLast? = some last)
    (hx : Float64.lt predicted (.num (first.Connections : K)) = true ∨
      Float64.gt predicted (.num (last.Connections : K)) = true) :
    interpolateThroughput results predicted = .error .outOfBounds := by
  have hlt : ¬ results.length < 2 := by omega
  rw [interpolateThroughput, if_neg hlt]
  rcases hx with hx | hx
  · obtain ⟨ys, hys⟩ := List.head?_eq_some_iff.mp hfirst
    subst hys
    have hge : Float64.ge (.num (first.Connections : K)) predicted = true :=
      Float64.le_of_lt_num predicted _ hx
    simp [findAdjacent, hge]
  · have hnone := findAdjacent_snd_none predicted results none (by
      intro r hr
      have hle := (connections_between_first_and_last results first last hasc hfirst hlast
        r hr).2
      exact Float64.not_le_of_gt_num predicted _ _ (Int.cast_le.mpr hle) hx)
    cases hfa : findAdjacent predicted results none with
    | mk lo hi =>
      rw [hfa] at hnone
      simp only at hnone
      subst hnone
      cases lo <;> rfl

/-- Witness for C15: on the samples with concurrency 1 and 10 the predicted concurrency 0
is below the first sample, and the predicted concurrencies 11 and `+Inf` are above the
last one. -/
theorem interpolateThroughput_outside_envelope_witness :
    interpolateThroughput twoSamples (.num (0 : ℚ)) = .error .outOfBounds ∧
      interpolateThroughput twoSamples (.num (11 : ℚ)) = .error .outOfBounds ∧
      interpolateThroughput twoSamples .posInf = .error .outOfBounds :=
  ⟨interpolateThroughput_outside_envelope twoSamples (sample 1 10 100) (sample 10 20 900)
      (.num 0) (by decide) (by simp [twoSamples, sample]) rfl rfl
      (Or.inl (by simp [Float64.lt, sample])),
    interpolateThroughput_outside_envelope twoSamples (sample 1 10 100) (sample 10 20 900)
      (.num 11) (by decide) (by simp [twoSamples, sample]) rfl rfl
      (Or.inr (by simp [Float64.gt, Float64.lt, sample]; norm_num)),
    interpolateThroughput_outside_envelope twoSamples (sample 1 10 100) (sample 10 20 900)
      .posInf (by decide) (by simp [twoSamples, sample]) rfl rfl
      (Or.inr (by simp [Float64.gt, Float64.lt]))⟩

end InterpolatorBounds

/-! ## The orchestrator -/

section Orchestrator

/-- The orchestrator succeeds exactly when the four stages succeed in turn, and then
returns the root of the solver. -/
theorem analyzeAndPredict_eq_ok_iff (sqrt : K → K) (t : Int) (p : LatencyPercentile)
    (results : List (TestResult K)) (x : Float64 K) :
    analyzeAndPredict sqrt t p results = .ok x ↔
      ∃ a b c, quadraticRegression results p = .ok (a, b, c) ∧
        predictConcurrencyQuad sqrt a b c t = .ok x ∧
        validatePrediction sqrt a b c t p results = none ∧
        ∃ y, interpolateThroughput results x = .ok y := by
  cases h1 : quadraticRegression results p with
  | error e => simp [analyzeAndPredict, h1]
  | ok abc =>
    obtain ⟨a, b, c⟩ := abc
    cases h2 : predictConcurrencyQuad sqrt a b c t with
    | error e =>
      simp only [analyzeAndPredict, h1, h2, Except.ok.injEq, Prod.mk.injEq]
      constructor
      · intro h
        cases h
      · rintro ⟨a', b', c', ⟨rfl, rfl, rfl⟩, hx, _⟩
        rw [h2] at hx
        cases hx
    | ok r =>
      cases h3 : validatePrediction sqrt a b c t p results with
      | some e =>
        simp only [analyzeAndPredict, h1, h2, h3, Except.ok.injEq, Prod.mk.injEq]
        constructor
        · intro h
          cases h
        · rintro ⟨a', b', c', ⟨rfl, rfl, rfl⟩, _, hv, _⟩
          rw [h3] at hv
          cases hv
      | none =>
        cases h4 : interpolateThroughput results r with
        | error e =>
          simp only [analyzeAndPredict, h1, h2, h3, h4, Except.ok.injEq, Prod.mk.injEq]
          constructor
          · intro h
            cases h
          · rintro ⟨a', b', c', ⟨rfl, rfl, rfl⟩, hx, _, y, hy⟩
            rw [h2] at hx
            injection hx with hx
            rw [← hx, h4] at hy
            cases hy
        | ok y =>
          simp only [analyzeAndPredict, h1, h2, h3, h4, Except.ok.injEq, Prod.mk.injEq]
          constructor
          · rintro rfl
            exact ⟨a, b, c, ⟨rfl, rfl, rfl⟩, h2, h3, y, h4⟩
          · rintro ⟨a', b', c', ⟨rfl, rfl, rfl⟩, hx, _, _⟩
            rw [h2] at hx
            injection hx

/-- Claim C16.  `analyzeAndPredict` returns a prediction exactly when the fit, the solver
(on the fitted coefficients), the validator and the interpolator (on the solver's root)
all succeed, and the prediction is the solver's root; otherwise it returns the error of
the first stage that fails, in the order fit, solve, validate, interpolate (the errors of
the fit, the solver and the interpolator wrapped in the message that names the stage, the
error of the validator as it is). -/
theorem analyzeAndPredict_stages (sqrt : K → K) (t : Int) (p : LatencyPercentile)
    (results : List (TestResult K)) :
    (∀ x, analyzeAndPredict sqrt t p results = .ok x ↔
        ∃ a b c, quadraticRegression results p = .ok (a, b, c) ∧
          predictConcurrencyQuad sqrt a b c t = .ok x ∧
          validatePrediction sqrt a b c t p results = none ∧
          ∃ y, interpolateThroughput results x = .ok y) ∧
      (∀ e, quadraticRegression results p = .error e →
        analyzeAndPredict sqrt t p results = .error (.regressionFailed e)) ∧
      (∀ a b c e, quadraticRegression results p = .ok (a, b, c) →
        predictConcurrencyQuad sqrt a b c t = .error e →
        analyzeAndPredict sqrt t p results = .error (.predictFailed e)) ∧
      (∀ a b c x e, quadraticRegression results p = .ok (a, b, c) →
        predictConcurrencyQuad sqrt a b c t = .ok x →
        validatePrediction sqrt a b c t p results = some e →
        analyzeAndPredict sqrt t p results = .error e) ∧
      (∀ a b c x e, quadraticRegression results p = .ok (a, b, c) →
        predictConcurrencyQuad sqrt a b c t = .ok x →
        validatePrediction sqrt a b c t p results = none →
        interpolateThroughput results x = .error e →
        analyzeAndPredict sqrt t p results = .error (.interpolateFailed e)) := by
  refine ⟨analyzeAndPredict_eq_ok_iff sqrt t p results, ?_, ?_, ?_, ?_⟩
  · intro e h1
    simp [analyzeAndPredict, h1]
  · intro a b c e h1 h2
    simp [analyzeAndPredict, h1, h2]
  · intro a b c x e h1 h2 h3
    simp [analyzeAndPredict, h1, h2, h3]
  · intro a b c x e h1 h2 h3 h4
    simp [analyzeAndPredict, h1, h2, h3, h4]

end Orchestrator

/-! ## The analysis reads only concurrency, selected latency and throughput -/

section ErrorCounts

open Matrix

/-- Entry `(i, j)` of `XᵀX` as a sum over the samples. -/
theorem normal_apply_eq_sum (results : List (TestResult K)) (p : LatencyPercentile)
    (i j : Fin 3) :
    ((designMatrix (concurrencyOf results))ᵀ * designMatrix (concurrencyOf results)) i j =
      ((results.map (observed p)).map fun o : Int × K × K =>
        (![1, (o.1 : K), (o.1 : K) * (o.1 : K)] : Fin 3 → K) i *
          (![1, (o.1 : K), (o.1 : K) * (o.1 : K)] : Fin 3 → K) j).sum := by
  rw [List.map_map, sum_map_eq_sum_get, Matrix.mul_apply]
  rfl

/-- Entry `j` of `Xᵀy` as a sum over the samples. -/
theorem normal_rhs_apply_eq_sum (results : List (TestResult K)) (p : LatencyPercentile)
    (j : Fin 3) :
    ((designMatrix (concurrencyOf results))ᵀ *ᵥ latencyOf results p) j =
      ((results.map (observed p)).map fun o : Int × K × K =>
        (![1, (o.1 : K), (o.1 : K) * (o.1 : K)] : Fin 3 → K) j * o.2.1).sum := by
  rw [List.map_map, sum_map_eq_sum_get]
  rfl

/-- The fit depends on the samples only through the fields listed in `observed`. -/
theorem quadraticRegression_congr (results results' : List (TestResult K))
    (p : LatencyPercentile) (h : results.map (observed p) = results'.map (observed p)) :
    quadraticRegression results p = quadraticRegression results' p := by
  have hlen : results.length = results'.length := by
    have := congrArg List.length h
    simpa using this
  have hM : (designMatrix (concurrencyOf results))ᵀ * designMatrix (concurrencyOf results) =
      (designMatrix (concurrencyOf results'))ᵀ * designMatrix (concurrencyOf results') := by
    ext i j
    rw [normal_apply_eq_sum results p, normal_apply_eq_sum results' p, h]
  have hv : (designMatrix (concurrencyOf results))ᵀ *ᵥ latencyOf results p =
      (designMatrix (concurrencyOf results'))ᵀ *ᵥ latencyOf results' p := by
    funext j
    rw [normal_rhs_apply_eq_sum results p, normal_rhs_apply_eq_sum results' p, h]
  simp only [quadraticRegression, hlen, hM, hv]

/-- The loop over the latencies depends only on the observed fields. -/
theorem allLatenciesAboveTarget_eq_all (t : Int) (p : LatencyPercentile) :
    ∀ results : List (TestResult K),
      allLatenciesAboveTarget t p results =
        (results.map (observed p)).all fun o : Int × K × K => !decide (o.2.1 ≤ (t : K)) := by
  intro results
  induction results with
  | nil => rfl
  | cons r rest ih =>
    by_cases h : r.Latency p ≤ (t : K)
    · simp [allLatenciesAboveTarget, observed, h]
    · simp [allLatenciesAboveTarget, observed, h, ih]

/-- The validator depends on the samples only through the fields listed in `observed`. -/
theorem validatePrediction_congr (sqrt : K → K) (a b c : K) (t : Int)
    (p : LatencyPercentile) (results results' : List (TestResult K))
    (h : results.map (observed p) = results'.map (observed p)) :
    validatePrediction sqrt a b c t p results = validatePrediction sqrt a b c t p results' := by
  have hall : allLatenciesAboveTarget t p results = allLatenciesAboveTarget t p results' := by
    rw [allLatenciesAboveTarget_eq_all, allLatenciesAboveTarget_eq_all, h]
  have hhead : results.head?.map (observed p) = results'.head?.map (observed p) := by
    rw [← List.head?_map, ← List.head?_map, h]
  have hlast : results.getLast?.map (observed p) = results'.getLast?.map (observed p) := by
    rw [← List.getLast?_map, ← List.getLast?_map, h]
  simp only [validatePrediction, hall]
  cases hf : results.head? <;> cases hf' : results'.head? <;>
    cases hl : results.getLast? <;> cases hl' : results'.getLast? <;>
    simp only [hf, hf', hl, hl', Option.map_some', Option.map_none', Option.some.injEq,
      observed, Prod.mk.injEq] at hhead hlast <;>
    first
    | rfl
    | (obtain ⟨hc1, -, -⟩ := hhead
       obtain ⟨hc2, -, -⟩ := hlast
       simp only [hc1, hc2])
    | (cases hhead; done)
    | cases hlast

/-- The scan for the adjacent samples depends on the samples only through their
concurrency, and returns samples with the same concurrency and throughput. -/
theorem findAdjacent_congr (x : Float64 K) :
    ∀ (l l' : List (TestResult K)) (low low' : Option (TestResult K)),
      l.map (fun r : TestResult K => (r.Connections, r.Throughput)) =
        l'.map (fun r : TestResult K => (r.Connections, r.Throughput)) →
      low.map (fun r : TestResult K => (r.Connections, r.Throughput)) =
        low'.map (fun r : TestResult K => (r.Connections, r.Throughput)) →
      (findAdjacent x l low).1.map (fun r : TestResult K => (r.Connections, r.Throughput)) =
          (findAdjacent x l' low').1.map
            (fun r : TestResult K => (r.Connections, r.Throughput)) ∧
        (findAdjacent x l low).2.map (fun r : TestResult K => (r.Connections, r.Throughput)) =
          (findAdjacent x l' low').2.map
            (fun r : TestResult K => (r.Connections, r.Throughput)) := by
  intro l
  induction l with
  | nil =>
    intro l' low low' hl hlow
    cases l' with
    | nil => exact ⟨hlow, rfl⟩
    | cons r' rest' => simp at hl
  | cons r rest ih =>
    intro l' low low' hl hlow
    cases l' with
    | nil => simp at hl
    | cons r' rest' =>
      simp only [List.map_cons, List.cons.injEq, Prod.mk.injEq] at hl
      obtain ⟨⟨hc, ht⟩, hrest⟩ := hl
      by_cases hge : Float64.ge (.num (r.Connections : K)) x = true
      · have hge' : Float64.ge (.num (r'.Connections : K)) x = true := by rw [← hc]; exact hge
        simp only [findAdjacent, hge, hge', if_true]
        exact ⟨hlow, by simp [hc, ht]⟩
      · have hge' : ¬ Float64.ge (.num (r'.Connections : K)) x = true := by rw [← hc]; exact hge
        simp only [findAdjacent, hge, hge', if_false]
        exact ih rest' (some r) (some r') hrest (by simp [hc, ht])

/-- The interpolator depends on the samples only through concurrency and throughput. -/
theorem interpolateThroughput_congr (results results' : List (TestResult K))
    (x : Float64 K)
    (h : results.map (fun r : TestResult K => (r.Connections, r.Throughput)) =
      results'.map (fun r : TestResult K => (r.Connections, r.Throughput))) :
    interpolateThroughput results x = interpolateThroughput results' x := by
  have hlen : results.length = results'.length := by
    have := congrArg List.length h
    simpa using this
  obtain ⟨h1, h2⟩ := findAdjacent_congr x results results' none none h rfl
  simp only [interpolateThroughput, hlen]
  cases hfa : findAdjacent x results none with
  | mk lo hi =>
    cases hfa' : findAdjacent x results' none with
    | mk lo' hi' =>
      rw [hfa, hfa'] at h1 h2
      cases lo <;> cases lo' <;> cases hi <;> cases hi' <;>
        simp only [Option.map_some', Option.map_none', Option.some.injEq, Prod.mk.injEq] at h1 h2 <;>
        first
        | rfl
        | (obtain ⟨e1, e2⟩ := h1
           obtain ⟨e3, e4⟩ := h2
           simp only [e1, e2, e3, e4])
        | (cases h1; done)
        | cases h2

/-- The orchestrator depends on the samples only through the fields listed in `observed`. -/
theorem analyzeAndPredict_congr (sqrt : K → K) (t : Int) (p : LatencyPercentile)
    (results results' : List (TestResult K))
    (h : results.map (observed p) = results'.map (observed p)) :
    analyzeAndPredict sqrt t p results = analyzeAndPredict sqrt t p results' := by
  have hcore : results.map (fun r : TestResult K => (r.Connections, r.Throughput)) =
      results'.map (fun r : TestResult K => (r.Connections, r.Throughput)) := by
    have := congrArg (List.map fun o : Int × K × K => (o.1, o.2.2)) h
    simpa [List.map_map, Function.comp, observed] using this
  simp only [analyzeAndPredict, quadraticRegression_congr results results' p h,
    validatePrediction_congr sqrt _ _ _ t p results results' h,
    interpolateThroughput_congr results results' _ hcore]

/-- Sequences that differ only in error and completed counts have the same observed
fields. -/
theorem observed_eq_of_sameUpToErrorCounts (p : LatencyPercentile)
    (results results' : List (TestResult K))
    (h : List.Forall₂ sameUpToErrorCounts results results') :
    results.map (observed p) = results'.map (observed p) := by
  induction h with
  | nil => rfl
  | cons hr _ ih =>
    rw [List.map_cons, List.map_cons, ih]
    congr 1
    rw [hr]
    rfl

/-- Claim C17.  For two sample sequences that differ only in their `Errors` and
`Completed` fields, `quadraticRegression` returns the same outcome and so does
`analyzeAndPredict`: the same coefficients or prediction, or the same error.  A sample
with errors is neither left out of the fit nor able to block the analysis. -/
theorem error_counts_do_not_affect_analysis (sqrt : K → K) (t : Int)
    (p : LatencyPercentile) (results results' : List (TestResult K))
    (h : List.Forall₂ sameUpToErrorCounts results results') :
    quadraticRegression results p = quadraticRegression results' p ∧
      analyzeAndPredict sqrt t p results = analyzeAndPredict sqrt t p results' :=
  ⟨quadraticRegression_congr results results' p
      (observed_eq_of_sameUpToErrorCounts p results results' h),
    analyzeAndPredict_congr sqrt t p results results'
      (observed_eq_of_sameUpToErrorCounts p results results' h)⟩

/-- Witness for C17: the samples with concurrency 1, 3, 10 without and with error counts. -/
theorem error_counts_do_not_affect_analysis_witness :
    quadraticRegression (sortedSamples : List (TestResult ℚ)) Latency90 =
        quadraticRegression sortedSamplesWithErrors Latency90 ∧
      analyzeAndPredict Rat.sqrt 10 Latency90 (sortedSamples : List (TestResult ℚ)) =
        analyzeAndPredict Rat.sqrt 10 Latency90 sortedSamplesWithErrors :=
  error_counts_do_not_affect_analysis Rat.sqrt 10 Latency90 sortedSamples
    sortedSamplesWithErrors
    (List.Forall₂.cons rfl (List.Forall₂.cons rfl (List.Forall₂.cons rfl List.Forall₂.nil)))

end ErrorCounts

/-! ## The parser of the load generator's output -/

section Parser

/-- The field-count rule accepts records that all have the width of the first. -/
theorem checkFieldCount_eq_some (record : List String) (rest : List (List String))
    (h : ∀ r ∈ rest, r.length = record.length) :
    checkFieldCount (record :: rest) = some (record :: rest) := by
  have hall : (rest.all fun r => decide (r.length = record.length)) = true := by
    rw [List.all_eq_true]
    intro r hr
    exact decide_eq_true (h r hr)
  simp only [checkFieldCount, hall, if_true]

/-- The field-count rule rejects records of which one has another width than the first. -/
theorem checkFieldCount_eq_none (record : List String) (rest : List (List String))
    (h : ∃ r ∈ rest, r.length ≠ record.length) :
    checkFieldCount (record :: rest) = none := by
  obtain ⟨r, hr, hne⟩ := h
  have hall : ¬ (rest.all fun r => decide (r.length = record.length)) = true := by
    rw [List.all_eq_true]
    intro hall
    exact hne (of_decide_eq_true (hall r hr))
  simp only [checkFieldCount, hall, Bool.false_eq_true, if_false]

/-- Counterexample to C19 as stated: the first record of the text `raggedOutput` has
sixteen fields that all parse, but its second record has two fields; the reader reports
an error for the text and `parseCSVOutput` fails instead of ignoring the second record. -/
theorem parseCSVOutput_ragged_second_record :
    plainRecords raggedOutput = some [sampleRecord, ["second", "record"]] ∧
      16 ≤ sampleRecord.length ∧
      (∀ i ∈ [1, 2, 5, 10, 11, 12, 13, 14, 15],
        (sampleParseFloat (sampleRecord.getD i "")).isSome = true) ∧
      (∀ i ∈ [3, 4, 6, 7, 8, 9], (sampleAtoi (sampleRecord.getD i "")).isSome = true) ∧
      parseCSVOutput plainRecords sampleParseFloat sampleAtoi raggedOutput =
        .error .couldNotRead := by
  refine ⟨rfl, by decide, ?_, ?_, rfl⟩
  · intro i hi
    simp only [List.mem_cons, List.mem_singleton, List.not_mem_nil, or_false] at hi
    rcases hi with rfl | rfl | rfl | rfl | rfl | rfl | rfl | rfl | rfl <;> rfl
  · intro i hi
    simp only [List.mem_cons, List.mem_singleton, List.not_mem_nil, or_false] at hi
    rcases hi with rfl | rfl | rfl | rfl | rfl | rfl <;> rfl

/-- Claim C19, amended.  For a text in which the CSV reader finds no lexical error: when
every further record has as many fields as the first, the first record has at least 16
fields, columns 1, 2, 5 and 10 to 15 parse as floats and columns 3, 4 and 6 to 9 parse as
integers, `parseCSVOutput` succeeds and fills the sample from the first record in the
column order name, throughput, average latency, threads, connections, duration,
completed, successful, errors, sockets, minimum latency, maximum latency, 50%, 90%, 98%,
99%, whatever the contents of the further records; it fails when there is no record, when
the first record has fewer than 16 fields, when a further record has another number of
fields than the first, and when the reader finds a lexical error. -/
theorem parseCSVOutput_first_record {F : Type}
    (readRecords : String → Option (List (List String)))
    (parseFloat : String → Option F) (atoi : String → Option Int) (output : String) :
    (∀ (record : List String) (rest : List (List String))
        (throughput avgLatency duration minLatency maxLatency : F)
        (latency50 latency90 latency98 latency99 : F)
        (threads connections completed successful errors sockets : Int),
        readRecords output = some (record :: rest) →
        (∀ r ∈ rest, r.length = record.length) → 16 ≤ record.length →
        parseFloat (record.getD 1 "") = some throughput →
        parseFloat (record.getD 2 "") = some avgLatency →
        atoi (record.getD 3 "") = some threads →
        atoi (record.getD 4 "") = some connections →
        parseFloat (record.getD 5 "") = some duration →
        atoi (record.getD 6 "") = some completed →
        atoi (record.getD 7 "") = some successful →
        atoi (record.getD 8 "") = some errors →
        atoi (record.getD 9 "") = some sockets →
        parseFloat (record.getD 10 "") = some minLatency →
        parseFloat (record.getD 11 "") = some maxLatency →
        parseFloat (record.getD 12 "") = some latency50 →
        parseFloat (record.getD 13 "") = some latency90 →
        parseFloat (record.getD 14 "") = some latency98 →
        parseFloat (record.getD 15 "") = some latency99 →
        parseCSVOutput readRecords parseFloat atoi output =
          .ok { Name := record.getD 0 "", Throughput := throughput, AvgLatency := avgLatency,
                Threads := threads, Connections := connections, Duration := duration,
                Completed := completed, Successful := successful, Errors := errors,
                Sockets := sockets, MinLatency := minLatency, MaxLatency := maxLatency,
                Latency50 := latency50, Latency90 := latency90, Latency98 := latency98,
                Latency99 := latency99 }) ∧
      (readRecords output = some [] →
        parseCSVOutput readRecords parseFloat atoi output = .error .noRecords) ∧
      (∀ (record : List String) (rest : List (List String)),
        readRecords output = some (record :: rest) →
        (∀ r ∈ rest, r.length = record.length) → record.length < 16 →
        parseCSVOutput readRecords parseFloat atoi output = .error (.invalidFormat record)) ∧
      (∀ (record : List String) (rest : List (List String)),
        readRecords output = some (record :: rest) →
        (∃ r ∈ rest, r.length ≠ record.length) →
        parseCSVOutput readRecords parseFloat atoi output = .error .couldNotRead) ∧
      (readRecords output = none →
        parseCSVOutput readRecords parseFloat atoi output = .error .couldNotRead) := by
  refine ⟨?_, ?_, ?_, ?_, ?_⟩
  · intro record rest throughput avgLatency duration minLatency maxLatency latency50 latency90
      latency98 latency99 threads connections completed successful errors sockets hread hwidth
      hlen h1 h2 h3 h4 h5 h6 h7 h8 h9 h10 h11 h12 h13 h14 h15
    have hlt : ¬ record.length < 16 := by omega
    have hall : ReadAll readRecords output = some (record :: rest) := by
      simp only [ReadAll, hread, Option.some_bind, checkFieldCount_eq_some record rest hwidth]
    simp only [parseCSVOutput, hall, hlt, if_false, h1, h2, h3, h4, h5, h6, h7, h8, h9, h10,
      h11, h12, h13, h14, h15, orFail]
    rfl
  · intro h
    have hall : ReadAll readRecords output = some [] := by
      simp only [ReadAll, h, Option.some_bind, checkFieldCount]
    simp only [parseCSVOutput, hall]
  · intro record rest h hwidth hlen
    have hall : ReadAll readRecords output = some (record :: rest) := by
      simp only [ReadAll, h, Option.some_bind, checkFieldCount_eq_some record rest hwidth]
    simp only [parseCSVOutput, hall, hlen, if_true]
  · intro record rest h hwidth
    have hall : ReadAll readRecords output = none := by
      simp only [ReadAll, h, Option.some_bind, checkFieldCount_eq_none record rest hwidth]
    simp only [parseCSVOutput, hall]
  · intro h
    have hall : ReadAll readRecords output = none := by
      simp only [ReadAll, h, Option.none_bind]
    simp only [parseCSVOutput, hall]

/-- Witness for C19, amended: the text `twoRecordOutput` of two records of sixteen
fields; the sample is filled from the first record. -/
theorem parseCSVOutput_first_record_witness :
    parseCSVOutput plainRecords sampleParseFloat sampleAtoi twoRecordOutput =
      .ok { Name := "run", Throughput := 1625 / 2, AvgLatency := 25 / 2, Threads := 4,
            Connections := 10, Duration := 61 / 2, Completed := 24375, Successful := 24370,
            Errors := 5, Sockets := 10, MinLatency := 3 / 2, MaxLatency := 191 / 2,
            Latency50 := 23 / 2, Latency90 := 41 / 2, Latency98 := 81 / 2,
            Latency99 := 121 / 2 } :=
  (parseCSVOutput_first_record plainRecords sampleParseFloat sampleAtoi twoRecordOutput).1
    sampleRecord
    [["b", "1", "2", "3", "4", "5", "6", "7", "8", "9", "1", "2", "3", "4", "5", "6"]]
    (1625 / 2) (25 / 2) (61 / 2) (3 / 2) (191 / 2) (23 / 2) (41 / 2)
    (81 / 2) (121 / 2) 4 10 24375 24370 5 10
    (by simp [plainRecords, twoRecordOutput, scanRecords, sampleRecord])
    (by decide) (by decide) rfl rfl (by decide)
    (by decide) rfl (by decide) (by decide) (by decide) (by decide) rfl rfl rfl rfl rfl rfl

end Parser

/-! ## Where a successful prediction lies -/

section Envelope

/-- When the scan stops at an upper neighbour, that sample is one of the scanned samples
and its concurrency is `>=` the predicted one. -/
theorem findAdjacent_snd_some (predicted : Float64 K) :
    ∀ (l : List (TestResult K)) (low lo : Option (TestResult K)) (hi : TestResult K),
      findAdjacent predicted l low = (lo, some hi) →
      hi ∈ l ∧ Float64.ge (.num (hi.Connections : K)) predicted = true := by
  intro l
  induction l with
  | nil =>
    intro low lo hi h
    simp [findAdjacent] at h
  | cons r rest ih =>
    intro low lo hi h
    by_cases hge : Float64.ge (.num (r.Connections : K)) predicted = true
    · simp only [findAdjacent, hge, if_true, Prod.mk.injEq, Option.some.injEq] at h
      obtain ⟨-, rfl⟩ := h
      exact ⟨List.mem_cons_self _ _, hge⟩
    · simp only [findAdjacent, hge, if_false] at h
      obtain ⟨hmem, hhi⟩ := ih (some r) lo hi h
      exact ⟨List.mem_cons_of_mem r hmem, hhi⟩

/-- A successful interpolation: the predicted concurrency is an ordinary number `x`,
strictly above the first sample's concurrency and at most the concurrency of some sample. -/
theorem interpolateThroughput_ok_bounds (results : List (TestResult K))
    (predicted y : Float64 K) (h : interpolateThroughput results predicted = .ok y) :
    ∃ (x : K) (first hi : TestResult K), predicted = .num x ∧
      results.head? = some first ∧ (first.Connections : K) < x ∧
      hi ∈ results ∧ x ≤ (hi.Connections : K) := by
  cases results with
  | nil => simp [interpolateThroughput] at h
  | cons first rest =>
    by_cases hlen : (first :: rest).length < 2
    · rw [interpolateThroughput, if_pos hlen] at h
      cases h
    · rw [interpolateThroughput, if_neg hlen] at h
      cases hfa : findAdjacent predicted (first :: rest) none with
      | mk lo hi =>
        rw [hfa] at h
        cases lo with
        | none => simp at h
        | some lo =>
          cases hi with
          | none => simp at h
          | some hi =>
            obtain ⟨hmem, hge⟩ := findAdjacent_snd_some predicted _ _ _ _ hfa
            have hfirst : Float64.ge (.num (first.Connections : K)) predicted = false := by
              by_contra hcon
              have htrue : Float64.ge (.num (first.Connections : K)) predicted = true := by
                simpa using hcon
              simp [findAdjacent, htrue] at hfa
            cases predicted with
            | num x =>
              rw [Float64.ge_num] at hge hfirst
              refine ⟨x, first, hi, rfl, rfl, ?_, hmem, ?_⟩
              · have := of_decide_eq_false hfirst
                exact not_le.mp this
              · exact of_decide_eq_true hge
            | posInf => simp [Float64.ge, Float64.le] at hge
            | negInf => simp [Float64.ge, Float64.le] at hfirst
            | nan => simp [Float64.ge, Float64.le] at hge

/-- When the solver returns an ordinary number, the quadratic coefficient is nonzero, the
discriminant is non-negative and the number is `(-b + sqrt delta) / (2a)`. -/
theorem predictConcurrencyQuad_ok_num (sqrt : K → K) (a b c : K) (t : Int) (x : K)
    (h : predictConcurrencyQuad sqrt a b c t = .ok (.num x)) :
    a ≠ 0 ∧ 0 ≤ b * b - 4 * a * (c - (t : K)) ∧
      x = (-b + sqrt (b * b - 4 * a * (c - (t : K)))) / (2 * a) := by
  by_cases hd : b * b - 4 * a * (c - (t : K)) < 0
  · simp [predictConcurrencyQuad, hd] at h
  · have ha : a ≠ 0 := by
      intro ha
      subst ha
      simp only [predictConcurrencyQuad, hd, if_false, Except.ok.injEq, mul_zero,
        Float64.div] at h
      revert h
      simp only [if_true]
      split_ifs <;> simp [Float64.infOfSign]
      split_ifs <;> simp
    refine ⟨ha, not_lt.mp hd, ?_⟩
    rw [predictConcurrencyQuad_eq sqrt a b c t ha (not_lt.mp hd)] at h
    injection h with h
    injection h with h
    exact h.symm

/-- A successful analysis over the reals, for samples in any order: the prediction is an
ordinary number `x` strictly above the first sample's concurrency and at most the
concurrency of some sample, and the fitted quadratic takes the target value at `x`. -/
theorem analyzeAndPredict_ok_facts (t : Int) (p : LatencyPercentile)
    (results : List (TestResult ℝ)) (r : Float64 ℝ)
    (h : analyzeAndPredict Real.sqrt t p results = .ok r) :
    ∃ (x a b c : ℝ) (first hi : TestResult ℝ), r = .num x ∧
      results.head? = some first ∧ (first.Connections : ℝ) < x ∧
      hi ∈ results ∧ x ≤ (hi.Connections : ℝ) ∧
      quadraticRegression results p = .ok (a, b, c) ∧ a * x ^ 2 + b * x + c = (t : ℝ) := by
  obtain ⟨a, b, c, hfit, hpred, -, y, hint⟩ :=
    (analyzeAndPredict_eq_ok_iff Real.sqrt t p results r).mp h
  obtain ⟨x, first, hi, rfl, hfirst, hlo, hmem, hhi⟩ :=
    interpolateThroughput_ok_bounds results r y hint
  obtain ⟨ha, hd, hx⟩ := predictConcurrencyQuad_ok_num Real.sqrt a b c t x hpred
  refine ⟨x, a, b, c, first, hi, rfl, hfirst, hlo, hmem, hhi, hfit, ?_⟩
  rw [hx]
  exact (quadratic_formula_root a b c (t : ℝ) _ ha (Real.mul_self_sqrt hd)).1

/-- The fit of the three samples on `y = x² − 8x + 22`, in either order. -/
theorem parabola_fit :
    quadraticRegression (sortedSamples : List (TestResult K)) Latency90 = .ok (1, -8, 22) ∧
      quadraticRegression (unsortedSamples : List (TestResult K)) Latency90 =
        .ok (1, -8, 22) := by
  constructor
  · have hwell := wellConditioned_of_powerSums (sortedSamples : List (TestResult K))
      3 14 110 1028 10082 10082 15876
      (by norm_num [powerSum, sortedSamples, sample])
      (by norm_num [powerSum, sortedSamples, sample])
      (by norm_num [powerSum, sortedSamples, sample])
      (by norm_num [powerSum, sortedSamples, sample])
      (by norm_num [powerSum, sortedSamples, sample])
      (by norm_num [abs_of_pos]) (by norm_num) (by norm_num [abs_of_pos])
      (by norm_num [ConditionTolerance])
    apply quadraticRegression_eq_of_residuals _ _ _ _ _ (by simp [sortedSamples]) hwell.1
      hwell.2
    all_goals
      simp only [sortedSamples, List.map_cons, List.map_nil, List.sum_cons, List.sum_nil,
        sample_Latency90]
      norm_num [sample]
  · have hwell := wellConditioned_of_powerSums (unsortedSamples : List (TestResult K))
      3 14 110 1028 10082 10082 15876
      (by norm_num [powerSum, unsortedSamples, sample])
      (by norm_num [powerSum, unsortedSamples, sample])
      (by norm_num [powerSum, unsortedSamples, sample])
      (by norm_num [powerSum, unsortedSamples, sample])
      (by norm_num [powerSum, unsortedSamples, sample])
      (by norm_num [abs_of_pos]) (by norm_num) (by norm_num [abs_of_pos])
      (by norm_num [ConditionTolerance])
    apply quadraticRegression_eq_of_residuals _ _ _ _ _ (by simp [unsortedSamples]) hwell.1
      hwell.2
    all_goals
      simp only [unsortedSamples, List.map_cons, List.map_nil, List.sum_cons, List.sum_nil,
        sample_Latency90]
      norm_num [sample]

/-- The solver on the coefficients `(1, −8, 22)` with target 10 returns `6`. -/
theorem parabola_root :
    predictConcurrencyQuad Real.sqrt (1 : ℝ) (-8) 22 10 = .ok (.num 6) := by
  rw [predictConcurrencyQuad_real_eq 1 (-8) 22 10 4 (by norm_num) (by norm_num) (by norm_num)]
  norm_num

/-- The validator accepts the coefficients `(1, −8, 22)` with target 10 on the samples in
either order: in ascending order the root `6` lies in `[1, 10]`, in the order 1, 10, 3 the
other root `2` lies in `[1, 3]`. -/
theorem parabola_validate :
    validatePrediction Real.sqrt (1 : ℝ) (-8) 22 10 Latency90 sortedSamples = none ∧
      validatePrediction Real.sqrt (1 : ℝ) (-8) 22 10 Latency90 unsortedSamples = none := by
  have hd : (0 : ℝ) ≤ -8 * -8 - 4 * 1 * (22 - ((10 : Int) : ℝ)) := by norm_num
  have hs : Real.sqrt (-8 * -8 - 4 * 1 * (22 - ((10 : Int) : ℝ))) = 4 :=
    (Real.sqrt_eq_iff_mul_self_eq hd (by norm_num)).mpr (by norm_num)
  have h2 : (2 * 1 : ℝ) ≠ 0 := by norm_num
  have hl1 : allLatenciesAboveTarget 10 Latency90 (sortedSamples : List (TestResult ℝ))
      = false := by
    norm_num [sortedSamples, allLatenciesAboveTarget, sample_Latency90]
  have hl2 : allLatenciesAboveTarget 10 Latency90 (unsortedSamples : List (TestResult ℝ))
      = false := by
    norm_num [unsortedSamples, allLatenciesAboveTarget, sample_Latency90]
  constructor
  · rw [validatePrediction_eq Real.sqrt 1 (-8) 22 10 Latency90 sortedSamples
      (sample 1 15 100) (sample 10 42 900) rfl rfl hd, hs, hl1,
      Float64.div_num_of_ne_zero _ _ h2, Float64.div_num_of_ne_zero _ _ h2]
    norm_num [Float64.lt, Float64.gt, sample]
  · rw [validatePrediction_eq Real.sqrt 1 (-8) 22 10 Latency90 unsortedSamples
      (sample 1 15 100) (sample 3 7 300) rfl rfl hd, hs, hl2,
      Float64.div_num_of_ne_zero _ _ h2, Float64.div_num_of_ne_zero _ _ h2]
    norm_num [Float64.lt, Float64.gt, sample]

/-- The interpolator at concurrency `6` succeeds on the samples in either order. -/
theorem parabola_interpolate :
    (∃ y, interpolateThroughput (sortedSamples : List (TestResult ℝ)) (.num 6) = .ok y) ∧
      ∃ y, interpolateThroughput (unsortedSamples : List (TestResult ℝ)) (.num 6) = .ok y := by
  constructor
  · obtain ⟨_, _, _, _, _, _, _, h⟩ := interpolateThroughput_between
      (sample 1 15 100 : TestResult ℝ) [sample 3 7 300, sample 10 42 900] 6
      (by norm_num [sample]) ⟨sample 10 42 900, by simp, by norm_num [sample]⟩
    exact ⟨_, h⟩
  · obtain ⟨_, _, _, _, _, _, _, h⟩ := interpolateThroughput_between
      (sample 1 15 100 : TestResult ℝ) [sample 10 42 900, sample 3 7 300] 6
      (by norm_num [sample]) ⟨sample 10 42 900, by simp, by norm_num [sample]⟩
    exact ⟨_, h⟩

/-- Counterexample to C20 as stated: on the samples with concurrency 1, 10, 3 (in this
order) on `y = x² − 8x + 22` and target 10, `analyzeAndPredict` succeeds with the
prediction `6`, which is above the last sample's concurrency `3`. -/
theorem analyzeAndPredict_unsorted_above_last :
    analyzeAndPredict Real.sqrt 10 Latency90 (unsortedSamples : List (TestResult ℝ)) =
        .ok (.num 6) ∧
      (unsortedSamples : List (TestResult ℝ)).getLast? = some (sample 3 7 300) ∧
      ¬ (6 : ℝ) ≤ (((sample 3 7 300 : TestResult ℝ).Connections : Int) : ℝ) := by
  refine ⟨?_, rfl, by norm_num [sample]⟩
  exact (analyzeAndPredict_eq_ok_iff Real.sqrt 10 Latency90 unsortedSamples (.num 6)).mpr
    ⟨1, -8, 22, parabola_fit.2, parabola_root, parabola_validate.2, parabola_interpolate.2⟩

/-- Claim C20, amended.  Whenever `analyzeAndPredict` succeeds on samples in ascending order
of concurrency, the predicted concurrency is an ordinary number `x` with
`first.Connections < x <= last.Connections`, and the fitted quadratic evaluated at `x`
equals the target latency: `a x² + b x + c = target` for the coefficients `(a, b, c)` that
`quadraticRegression` returns for the same samples. -/
theorem analyzeAndPredict_within_envelope (t : Int) (p : LatencyPercentile)
    (results : List (TestResult ℝ)) (r : Float64 ℝ)
    (hasc : List.Pairwise (fun r1 r2 : TestResult ℝ => r1.Connections ≤ r2.Connections) results)
    (h : analyzeAndPredict Real.sqrt t p results = .ok r) :
    ∃ (x a b c : ℝ) (first last : TestResult ℝ), r = .num x ∧
      results.head? = some first ∧ results.getLast? = some last ∧
      (first.Connections : ℝ) < x ∧ x ≤ (last.Connections : ℝ) ∧
      quadraticRegression results p = .ok (a, b, c) ∧ a * x ^ 2 + b * x + c = (t : ℝ) := by
  obtain ⟨x, a, b, c, first, hi, hr, hfirst, hlo, hmem, hhi, hfit, heq⟩ :=
    analyzeAndPredict_ok_facts t p results r h
  have hne : results ≠ [] := List.ne_nil_of_mem hmem
  obtain ⟨last, hlast⟩ : ∃ last, results.getLast? = some last :=
    ⟨results.getLast hne, List.getLast?_eq_getLast results hne⟩
  have hle := (connections_between_first_and_last results first last hasc hfirst hlast
    hi hmem).2
  exact ⟨x, a, b, c, first, last, hr, hfirst, hlast, hlo,
    le_trans hhi (Int.cast_le.mpr hle), hfit, heq⟩

/-- Witness for C20, amended: the ascending samples with concurrency 1, 3, 10 on
`y = x² − 8x + 22` and target 10, where the analysis returns `6`. -/
theorem analyzeAndPredict_within_envelope_witness :
    ∃ (x a b c : ℝ) (first last : TestResult ℝ), Float64.num (6 : ℝ) = .num x ∧
      (sortedSamples : List (TestResult ℝ)).head? = some first ∧
      (sortedSamples : List (TestResult ℝ)).getLast? = some last ∧
      (first.Connections : ℝ) < x ∧ x ≤ (last.Connections : ℝ) ∧
      quadraticRegression (sortedSamples : List (TestResult ℝ)) Latency90 = .ok (a, b, c) ∧
      a * x ^ 2 + b * x + c = ((10 : Int) : ℝ) :=
  analyzeAndPredict_within_envelope 10 Latency90 sortedSamples (.num 6)
    (by simp [sortedSamples, sample])
    ((analyzeAndPredict_eq_ok_iff Real.sqrt 10 Latency90 sortedSamples (.num 6)).mpr
      ⟨1, -8, 22, parabola_fit.1, parabola_root, parabola_validate.1, parabola_interpolate.1⟩)

end Envelope

/-! ## Safety of the interpolation formula and of the validator's indexing -/

section Safety

/-- A linear interpolation at a point of `(x1, x2]` lies between the two ordinates. -/
theorem interpolation_between_ordinates (x x1 y1 x2 y2 : K) (h1 : x1 < x) (h2 : x ≤ x2) :
    min y1 y2 ≤ y1 + (y2 - y1) * (x - x1) / (x2 - x1) ∧
      y1 + (y2 - y1) * (x - x1) / (x2 - x1) ≤ max y1 y2 := by
  have hpos : 0 < x2 - x1 := by linarith
  have hθ0 : 0 ≤ (x - x1) / (x2 - x1) := div_nonneg (by linarith) hpos.le
  have hθ1 : (x - x1) / (x2 - x1) ≤ 1 := (div_le_one hpos).mpr (by linarith)
  have hform : y1 + (y2 - y1) * (x - x1) / (x2 - x1) =
      y1 + (y2 - y1) * ((x - x1) / (x2 - x1)) := by rw [mul_div_assoc]
  rw [hform]
  rcases le_total y1 y2 with hle | hle
  · rw [min_eq_left hle, max_eq_right hle]
    constructor
    · nlinarith [mul_nonneg (sub_nonneg.mpr hle) hθ0]
    · nlinarith [mul_nonneg (sub_nonneg.mpr hle) (sub_nonneg.mpr hθ1)]
  · rw [min_eq_right hle, max_eq_left hle]
    constructor
    · nlinarith [mul_nonneg (sub_nonneg.mpr hle) (sub_nonneg.mpr hθ1)]
    · nlinarith [mul_nonneg (sub_nonneg.mpr hle) hθ0]

/-- Claim C21, amended.  For every sample sequence (sorted or not, with or without
duplicate concurrency values) and every predicted concurrency (a number, an infinity or
NaN): if `interpolateThroughput` reaches the interpolation formula, the predicted
concurrency is an ordinary number `x`, the pair used is two consecutive samples `lo`, `hi`
with `lo.Connections < x <= hi.Connections`, the divisor `x2 − x1` is strictly positive,
and, in exact arithmetic, the returned throughput is the formula's value, which lies
between `lo.Throughput` and `hi.Throughput` inclusive. -/
theorem interpolateThroughput_formula_safe (results : List (TestResult K))
    (predicted y : Float64 K) (h : interpolateThroughput results predicted = .ok y) :
    ∃ (x : K) (pre : List (TestResult K)) (lo hi : TestResult K) (post : List (TestResult K)),
      predicted = .num x ∧ results = pre ++ lo :: hi :: post ∧
      (lo.Connections : K) < x ∧ x ≤ (hi.Connections : K) ∧
      0 < (hi.Connections : K) - (lo.Connections : K) ∧
      y = .num (lo.Throughput + (hi.Throughput - lo.Throughput) *
        (x - (lo.Connections : K)) / ((hi.Connections : K) - (lo.Connections : K))) ∧
      min lo.Throughput hi.Throughput ≤ lo.Throughput + (hi.Throughput - lo.Throughput) *
        (x - (lo.Connections : K)) / ((hi.Connections : K) - (lo.Connections : K)) ∧
      lo.Throughput + (hi.Throughput - lo.Throughput) *
        (x - (lo.Connections : K)) / ((hi.Connections : K) - (lo.Connections : K)) ≤
          max lo.Throughput hi.Throughput := by
  obtain ⟨x, first, top, rfl, hfirst, hlow, hmem, htop⟩ :=
    interpolateThroughput_ok_bounds results predicted y h
  obtain ⟨rest, rfl⟩ := List.head?_eq_some_iff.mp hfirst
  have hrest : top ∈ rest := by
    rcases List.mem_cons.mp hmem with e | e
    · rw [e] at htop
      exact absurd hlow (not_lt.mpr htop)
    · exact e
  obtain ⟨pre, lo, hi, post, hsplit, hlo, hhi, hval⟩ :=
    interpolateThroughput_between first rest x hlow ⟨top, hrest, htop⟩
  rw [hval] at h
  injection h with h
  have hb := interpolation_between_ordinates x (lo.Connections : K) lo.Throughput
    (hi.Connections : K) hi.Throughput hlo hhi
  exact ⟨x, pre, lo, hi, post, rfl, hsplit, hlo, hhi, by linarith, h.symm, hb.1, hb.2⟩

/-- Witness for C21, amended: on the samples with concurrency 1 and 10 the interpolation at
concurrency 5 reaches the formula. -/
theorem interpolateThroughput_formula_safe_witness :
    ∃ (y : Float64 ℚ), interpolateThroughput twoSamples (.num 5) = .ok y ∧
      ∃ (x : ℚ) (pre : List (TestResult ℚ)) (lo hi : TestResult ℚ) (post : List (TestResult ℚ)),
        Float64.num (5 : ℚ) = .num x ∧ twoSamples = pre ++ lo :: hi :: post ∧
        (lo.Connections : ℚ) < x ∧ x ≤ (hi.Connections : ℚ) ∧
        0 < (hi.Connections : ℚ) - (lo.Connections : ℚ) ∧
        y = .num (lo.Throughput + (hi.Throughput - lo.Throughput) *
          (x - (lo.Connections : ℚ)) / ((hi.Connections : ℚ) - (lo.Connections : ℚ))) ∧
        min lo.Throughput hi.Throughput ≤ lo.Throughput + (hi.Throughput - lo.Throughput) *
          (x - (lo.Connections : ℚ)) / ((hi.Connections : ℚ) - (lo.Connections : ℚ)) ∧
        lo.Throughput + (hi.Throughput - lo.Throughput) *
          (x - (lo.Connections : ℚ)) / ((hi.Connections : ℚ) - (lo.Connections : ℚ)) ≤
            max lo.Throughput hi.Throughput := by
  obtain ⟨_, _, _, _, _, _, _, h⟩ := interpolateThroughput_between
    (sample 1 10 100 : TestResult ℚ) [sample 10 20 900] 5
    (by norm_num [sample]) ⟨sample 10 20 900, by simp, by norm_num [sample]⟩
  exact ⟨_, h, interpolateThroughput_formula_safe twoSamples (.num 5) _ h⟩

/-- On a non-empty sample sequence the validator never fails on an index. -/
theorem validatePrediction_ne_indexOutOfRange (sqrt : K → K) (a b c : K) (t : Int)
    (p : LatencyPercentile) (results : List (TestResult K)) (hne : results ≠ []) :
    validatePrediction sqrt a b c t p results ≠ some .indexOutOfRange := by
  obtain ⟨first, hfirst⟩ : ∃ first, results.head? = some first := by
    cases results with
    | nil => exact absurd rfl hne
    | cons r rest => exact ⟨r, rfl⟩
  obtain ⟨last, hlast⟩ : ∃ last, results.getLast? = some last :=
    ⟨results.getLast hne, List.getLast?_eq_getLast results hne⟩
  by_cases hd : 0 ≤ b * b - 4 * a * (c - (t : K))
  · rw [validatePrediction_eq sqrt a b c t p results first last hfirst hlast hd]
    split_ifs <;> simp
  · have hlt : b * b - 4 * a * (c - (t : K)) < 0 := not_le.mp hd
    have : validatePrediction sqrt a b c t p results = some (.cannotBeAchieved t) := by
      rw [validatePrediction]
      exact if_pos hlt
    rw [this]
    simp

/-- A successful fit has at least three samples. -/
theorem length_of_quadraticRegression_ok (results : List (TestResult K))
    (p : LatencyPercentile) (abc : K × K × K)
    (h : quadraticRegression results p = .ok abc) : 3 ≤ results.length := by
  by_contra hlen
  have hlt : results.length < 3 := by omega
  rw [quadraticRegression, if_pos hlt] at h
  cases h

/-- Counterexample to C22 as stated: on the empty sample sequence with
`a = 1, b = 0, c = 100, target = 50` the discriminant is negative, and the validator
returns the cannot-be-achieved error before it reads `results[0]`. -/
theorem validatePrediction_empty_negative_discriminant :
    validatePrediction Real.sqrt (1 : ℝ) 0 100 50 Latency90 [] =
        some (.cannotBeAchieved 50) ∧
      validatePrediction Real.sqrt (1 : ℝ) 0 100 50 Latency90 [] ≠ some .indexOutOfRange := by
  have h : validatePrediction Real.sqrt (1 : ℝ) 0 100 50 Latency90 [] =
      some (.cannotBeAchieved 50) := by
    have hd : (0 : ℝ) * 0 - 4 * 1 * (100 - ((50 : Int) : ℝ)) < 0 := by norm_num
    rw [validatePrediction]
    exact if_pos hd
  refine ⟨h, ?_⟩
  rw [h]
  simp

/-- Claim C22, amended.  `validatePrediction` reads `results[0]` and `results[len-1]`
without a length check: on an empty sample sequence it fails with index out of range
exactly when the discriminant is non-negative (with a negative discriminant it returns
the cannot-be-achieved error before any indexing).  Inside `analyzeAndPredict` the index
failure is unreachable: a successful `quadraticRegression` implies at least 3 samples, on
which the validator never fails on an index, and `analyzeAndPredict` never returns that
failure. -/
theorem validatePrediction_index_failure (sqrt : K → K) (a b c : K) (t : Int)
    (p : LatencyPercentile) :
    (validatePrediction sqrt a b c t p [] = some .indexOutOfRange ↔
        0 ≤ b * b - 4 * a * (c - (t : K))) ∧
      (validatePrediction sqrt a b c t p [] = some (.cannotBeAchieved t) ↔
        b * b - 4 * a * (c - (t : K)) < 0) ∧
      (∀ (results : List (TestResult K)) (a' b' c' : K),
        quadraticRegression results p = .ok (a', b', c') →
        3 ≤ results.length ∧
          validatePrediction sqrt a' b' c' t p results ≠ some .indexOutOfRange) ∧
      ∀ results : List (TestResult K),
        analyzeAndPredict sqrt t p results ≠ .error .indexOutOfRange := by
  refine ⟨?_, ?_, ?_, ?_⟩
  · by_cases hd : b * b - 4 * a * (c - (t : K)) < 0
    · simp [validatePrediction, hd, not_le.mpr hd]
    · simp [validatePrediction, hd, not_lt.mp hd]
  · by_cases hd : b * b - 4 * a * (c - (t : K)) < 0
    · simp [validatePrediction, hd]
    · simp [validatePrediction, hd]
  · intro results a' b' c' hfit
    have hlen := length_of_quadraticRegression_ok results p _ hfit
    have hne : results ≠ [] := by
      intro e
      rw [e] at hlen
      simp at hlen
    exact ⟨hlen, validatePrediction_ne_indexOutOfRange sqrt a' b' c' t p results hne⟩
  · intro results h
    cases h1 : quadraticRegression results p with
    | error e =>
      simp only [analyzeAndPredict, h1] at h
      cases h
    | ok abc =>
      obtain ⟨a', b', c'⟩ := abc
      have hlen := length_of_quadraticRegression_ok results p _ h1
      have hne : results ≠ [] := by
        intro e
        rw [e] at hlen
        simp at hlen
      cases h2 : predictConcurrencyQuad sqrt a' b' c' t with
      | error e =>
        simp only [analyzeAndPredict, h1, h2] at h
        cases h
      | ok r =>
        cases h3 : validatePrediction sqrt a' b' c' t p results with
        | some e =>
          simp only [analyzeAndPredict, h1, h2, h3] at h
          injection h with h
          rw [h] at h3
          exact validatePrediction_ne_indexOutOfRange sqrt a' b' c' t p results hne h3
        | none =>
          cases h4 : interpolateThroughput results r with
          | error e =>
            simp only [analyzeAndPredict, h1, h2, h3, h4] at h
            cases h
          | ok y =>
            simp only [analyzeAndPredict, h1, h2, h3, h4] at h
            cases h

end Safety

/-! ## The interpolation formula in float64 -/

section Rounding

/-- An integer is its own rounding. -/
theorem roundHalfEven_intCast (n : Int) : roundHalfEven (n : ℚ) = n := by
  simp [roundHalfEven]

/-- A tie above an odd integer is rounded up, to the even integer. -/
theorem roundHalfEven_tie_odd (n : Int) (hodd : n % 2 = 1) :
    roundHalfEven ((n : ℚ) + 1 / 2) = n + 1 := by
  have hfloor : ⌊(n : ℚ) + 1 / 2⌋ = n := by
    rw [Int.floor_eq_iff]
    constructor <;> norm_num
  have hfract : Int.fract ((n : ℚ) + 1 / 2) = 1 / 2 := by
    rw [Int.fract, hfloor]; ring
  have hne : ¬ n % 2 = 0 := by omega
  simp only [roundHalfEven, hfract, hfloor]
  norm_num [hne]

/-- The binary exponent of a positive rational number. -/
theorem log_two_eq (q : ℚ) (e : Int) (hq : 0 < q) (h1 : (2 : ℚ) ^ e ≤ q)
    (h2 : q < (2 : ℚ) ^ (e + 1)) : Int.log 2 q = e := by
  have a := (Int.zpow_le_iff_le_log (by norm_num : 1 < 2) hq).mp h1
  have b := (Int.lt_zpow_iff_log_lt (by norm_num : 1 < 2) hq).mp h2
  omega

/-- A positive number `m · 2^(e−52)` with `2^e ≤ q < 2^(e+1)` is a float64 value: rounding
leaves it unchanged. -/
theorem round64_exact (q : ℚ) (e m : Int) (hq : 0 < q) (h1 : (2 : ℚ) ^ e ≤ q)
    (h2 : q < (2 : ℚ) ^ (e + 1)) (hm : q = (m : ℚ) * 2 ^ (e - 52)) : round64 q = q := by
  have hlog := log_two_eq q e hq h1 h2
  have hpos : (0 : ℚ) < 2 ^ (e - 52) := by positivity
  rw [round64, abs_of_pos hq, hlog]
  have : q / 2 ^ (e - 52) = (m : ℚ) := by
    rw [hm, mul_div_assoc, div_self (ne_of_gt hpos), mul_one]
  rw [this, roundHalfEven_intCast, ← hm]

/-- A positive number halfway between the float64 values `n · 2^(e−52)` and
`(n + 1) · 2^(e−52)`, `n` odd, is rounded to the upper one. -/
theorem round64_tie_odd (q : ℚ) (e n : Int) (hq : 0 < q) (h1 : (2 : ℚ) ^ e ≤ q)
    (h2 : q < (2 : ℚ) ^ (e + 1)) (hn : q = ((n : ℚ) + 1 / 2) * 2 ^ (e - 52))
    (hodd : n % 2 = 1) : round64 q = ((n : ℚ) + 1) * 2 ^ (e - 52) := by
  have hlog := log_two_eq q e hq h1 h2
  have hpos : (0 : ℚ) < 2 ^ (e - 52) := by positivity
  rw [round64, abs_of_pos hq, hlog]
  have : q / 2 ^ (e - 52) = (n : ℚ) + 1 / 2 := by
    rw [hn, mul_div_assoc, div_self (ne_of_gt hpos), mul_one]
  rw [this, roundHalfEven_tie_odd n hodd]
  push_cast
  ring

/-- Without rounding the rounded scan is the scan. -/
theorem findAdjacentRounded_id (predicted : Float64 K) :
    ∀ (l : List (TestResult K)) (low : Option (TestResult K)),
      findAdjacentRounded id predicted l low = findAdjacent predicted l low := by
  intro l
  induction l with
  | nil => intro low; rfl
  | cons r rest ih =>
    intro low
    simp only [findAdjacentRounded, findAdjacent, id, ih]

/-- Without rounding a float64 value is unchanged. -/
theorem Float64.round_id {F : Type} (x : Float64 F) : Float64.round id x = x := by
  cases x <;> rfl

/-- Without rounding the rounded interpolation is `interpolateThroughput`. -/
theorem interpolateThroughputRounded_id (results : List (TestResult K))
    (predicted : Float64 K) :
    interpolateThroughputRounded id results predicted =
      interpolateThroughput results predicted := by
  simp only [interpolateThroughputRounded, interpolateThroughput, findAdjacentRounded_id,
    Float64.round_id, id]

/-- The float64 operations of the rounding example. -/
theorem round64_values :
    round64 1 = 1 ∧ round64 2 = 2 ∧
      round64 (1837327910478807 / 17592186044416) = 1837327910478807 / 17592186044416 ∧
      round64 (7917627212080087 / 8796093022208) = 7917627212080087 / 8796093022208 ∧
      round64 (7917627212080087 / 8796093022208 - 1837327910478807 / 17592186044416) =
        1749740814210171 / 2199023255552 ∧
      round64 (1749740814210171 / 2199023255552) = 1749740814210171 / 2199023255552 ∧
      round64 (1837327910478807 / 17592186044416 + 1749740814210171 / 2199023255552) =
        989703401510011 / 1099511627776 := by
  refine ⟨?_, ?_, ?_, ?_, ?_, ?_, ?_⟩
  · exact round64_exact 1 0 (2 ^ 52) (by norm_num) (by norm_num) (by norm_num) (by norm_num)
  · exact round64_exact 2 1 (2 ^ 52) (by norm_num) (by norm_num) (by norm_num) (by norm_num)
  · exact round64_exact _ 6 7349311641915228 (by norm_num) (by norm_num) (by norm_num)
      (by norm_num)
  · exact round64_exact _ 9 7917627212080087 (by norm_num) (by norm_num) (by norm_num)
      (by norm_num)
  · rw [round64_tie_odd _ 9 6998963256840683 (by norm_num) (by norm_num) (by norm_num)
      (by norm_num) (by norm_num)]
    norm_num
  · exact round64_exact _ 9 6998963256840684 (by norm_num) (by norm_num) (by norm_num)
      (by norm_num)
  · rw [round64_tie_odd _ 9 7917627212080087 (by norm_num) (by norm_num) (by norm_num)
      (by norm_num) (by norm_num)]
    norm_num

/-- Counterexample to C21 as stated: the samples `(1, 104.44)` and `(2, 900.13)` (their
float64 values) with the predicted concurrency `2`.  The scan stops at the second sample,
`1 < 2 <= 2` holds and the divisor is `1`, but with float64 rounding the difference
`y2 − y1` is rounded up and so is the sum `y1 + (y2 − y1)`: the returned throughput is
`7917627212080088 · 2^-43`, one unit in the last place above the throughput
`7917627212080087 · 2^-43` of the upper sample. -/
theorem interpolateThroughput_rounded_above_high :
    (∀ r ∈ roundingSamples, round64 r.Throughput = r.Throughput) ∧
      interpolateThroughputRounded round64 roundingSamples (.num 2) =
        .ok (.num (989703401510011 / 1099511627776)) ∧
      ((1 : Int) : ℚ) < 2 ∧ (2 : ℚ) ≤ ((2 : Int) : ℚ) ∧
      ¬ (989703401510011 / 1099511627776 : ℚ) ≤
        max (1837327910478807 / 17592186044416) (7917627212080087 / 8796093022208) := by
  obtain ⟨h1, h2, hy1, hy2, hd, hdd, hs⟩ := round64_values
  refine ⟨?_, ?_, by norm_num, by norm_num, by norm_num⟩
  · intro r hr
    simp only [roundingSamples, List.mem_cons, List.mem_singleton, List.not_mem_nil,
      or_false] at hr
    rcases hr with rfl | rfl
    · exact hy1
    · exact hy2
  · have e1 : (2 : ℚ) - 1 = 1 := by norm_num
    simp [interpolateThroughputRounded, findAdjacentRounded, roundingSamples, sample,
      Float64.ge, Float64.le, Float64.round, Float64.add, Float64.sub, Float64.neg,
      Float64.mul, Float64.div, h1, h2, ← sub_eq_add_neg, hd, hdd, hs, e1]

end Rounding

end Loadtest
